import Mathlib

/-!
Shallow embedding of the flashcontainer layout, codec and checksum engine
(files `src/flashcontainer/datamodel.py`, `byteconv.py`, `checksum.py`),
together with proofs settling the claims about them.

Modelling conventions:
* Python `bytearray` / `bytes` values are `List Nat`, each element a byte.
* Python `int` values used as addresses, lengths and fill patterns are `Nat`;
  values that may be negative (parsed literals) are `Int`.
* Python `struct.pack` of integer formats is modelled by `packScalar`, which
  returns `Except PyExc _` and fails (like Python, with `struct.error`) when
  the value is out of range for the format.  The fixed block-header record is
  packed by `Block.getHeaderBytes` with an explicit `% 2 ^ 16` / `% 2 ^ 32`
  truncation; for in-range field values this agrees with Python byte for byte.
* Exceptions are the `Except PyExc _` monad; a total function means the
  Python code cannot raise on the corresponding inputs.
* Floating point formats (FLOAT32/FLOAT64) are outside the embedding; the
  scalar codec reports `PyExc.floatUnsupported` for them and no theorem below
  relies on their behaviour.
* The external `crc` package used by `checksum.py` is not part of the
  repository; `crcChecksum` is modelled from the specification of the CRC
  engine (section 4.2 of the design spec).
-/

set_option maxRecDepth 40000

/-! ## Bytes and Python struct.pack / struct.unpack for integer formats -/

/-- Little-endian byte decomposition: `size` bytes of `n`, least significant
first (the tail bytes are zero once `n` is exhausted). -/
def natToBytesLE : Nat → Nat → List Nat
  | 0, _ => []
  | s + 1, n => (n % 256) :: natToBytesLE s (n / 256)

/-- Little-endian byte recomposition, inverse of `natToBytesLE`. -/
def bytesToNatLE : List Nat → Nat
  | [] => 0
  | b :: bs => b + 256 * bytesToNatLE bs

/-- Byte order of a block, `datamodel.py` class `Endianness`. -/
inductive Endianness
  | LE
  | BE
deriving DecidableEq, Repr

/-- Lay out little-endian bytes in the requested byte order (the `"<"` or
`">"` prefix of a Python struct format string). -/
def orient : Endianness → List Nat → List Nat
  | .LE, bs => bs
  | .BE, bs => bs.reverse

/-- Tags distinguishing the messages of the `DocumentInvalid` exceptions
raised in `byteconv.py` (the text of the messages is abstracted away). -/
inductive DocTag
  | notDict
  | keyMismatch (structName : String)
  | badValueKind
  | badArrayInput
  | arrayCount (fieldName : String)
deriving DecidableEq, Repr

/-- Python exceptions that the embedded code can raise.  `configError` does
not occur in the code; it is modelled from the spec (section 7 names a
`ConfigError` for a CRC configuration whose access width has no swap
strategy) so that the corresponding claim can be stated. -/
inductive PyExc
  | keyError (key : Nat)
  | keyErrorStr (key : String)
  | structError
  | typeError
  | valueError
  | documentInvalid (tag : DocTag)
  | floatUnsupported
  | configError
deriving DecidableEq, Repr

/-- Python `struct.pack` for one unsigned integer format (`B`/`H`/`L`/`Q`)
of `size` bytes: fails with `struct.error` when out of range. -/
def packUnsigned (size : Nat) (e : Endianness) (v : Int) : Except PyExc (List Nat) :=
  if 0 ≤ v ∧ v < (2 : Int) ^ (8 * size) then
    .ok (orient e (natToBytesLE size v.toNat))
  else
    .error .structError

/-- Python `struct.pack` for one signed integer format (`b`/`h`/`l`/`q`) of
`size` bytes: two-complement encoding, fails when out of range. -/
def packSigned (size : Nat) (e : Endianness) (v : Int) : Except PyExc (List Nat) :=
  if -((2 : Int) ^ (8 * size - 1)) ≤ v ∧ v < (2 : Int) ^ (8 * size - 1) then
    .ok (orient e (natToBytesLE size (v % (2 : Int) ^ (8 * size)).toNat))
  else
    .error .structError

/-- Split a list into chunks of `s` elements (the final chunk may be
shorter); fuel-driven so that it is structural. -/
def chunkAux (s : Nat) : Nat → List Nat → List (List Nat)
  | 0, _ => []
  | _, [] => []
  | fuel + 1, l => l.take s :: chunkAux s fuel (l.drop s)

/-- Chunking with enough fuel for the whole list. -/
def chunkList (s : Nat) (l : List Nat) : List (List Nat) :=
  chunkAux s l.length l

/-- Python bytearray slice assignment `l[start:start+len(repl)] = repl`. -/
def listSet (l : List Nat) (start : Nat) (repl : List Nat) : List Nat :=
  l.take start ++ repl ++ l.drop (start + repl.length)

/-! ## CRC engine, `checksum.py` -/

/-- Configuration data for arbitrary CRCs, `checksum.py` class `CrcConfig`
(same field names and defaults). -/
structure CrcConfig where
  poly : Nat := 0x04C11DB7
  width : Nat := 32
  init : Nat := 0xFFFFFFFF
  revin : Bool := true
  revout : Bool := true
  xor : Bool := true
  access : Nat := 1
  swap : Bool := false
deriving DecidableEq, Repr

/-- Reflect the low `w` bits of `v` (bit 0 becomes bit `w - 1`). -/
def reflectBits (w : Nat) (v : Nat) : Nat :=
  (List.range w).foldl (fun acc i => acc ||| (((v >>> i) &&& 1) <<< (w - 1 - i))) 0

/-- One MSB-first CRC shift step over the register. -/
def crcStep (poly width reg : Nat) : Nat :=
  let mask := 2 ^ width - 1
  if reg &&& 2 ^ (width - 1) ≠ 0 then ((reg <<< 1) ^^^ poly) &&& mask
  else (reg <<< 1) &&& mask

/-- Iterate `crcStep` a fixed number of times. -/
def crcBits (poly width : Nat) : Nat → Nat → Nat
  | 0, reg => reg
  | n + 1, reg => crcBits poly width n (crcStep poly width reg)

/-- Feed one input byte (optionally reflected) into the CRC register. -/
def crcByte (poly width : Nat) (revin : Bool) (reg b : Nat) : Nat :=
  let b' := if revin then reflectBits 8 b else b
  crcBits poly width 8 (reg ^^^ ((b' <<< (width - 8)) &&& (2 ^ width - 1)))

/-- Modelled from the spec: the `Crc.checksum` operation of `checksum.py`
delegates to the external `crc` package (`crc.Calculator`), which is not part
of the repository.  Following section 4.2 of the spec, this is the standard
bit-serial CRC with the configured polynomial, bit width, seed, input/output
reflection, and a final XOR with the all-ones mask of the configured width
when the `xor` flag is set (`checksum.py` passes
`0 if cfg.xor is False else (1 <<< width) - 1` as the final XOR value). -/
def crcChecksum (cfg : CrcConfig) (data : List Nat) : Nat :=
  let reg := data.foldl (crcByte cfg.poly cfg.width cfg.revin) cfg.init
  let reg := if cfg.revout then reflectBits cfg.width reg else reg
  if cfg.xor then reg ^^^ (2 ^ cfg.width - 1) else reg

/-- Byte swap in groups of `k` bytes, `checksum.py`
`Crc._swap_access_16bit/_32bit/_64bit` (`k` = 2, 4, 8): every group is read
little-endian and written back big-endian, i.e. reversed; Python
`struct.unpack` raises `struct.error` on a trailing group shorter than `k`. -/
def swapAccess (k : Nat) (data : List Nat) : Except PyExc (List Nat) :=
  ((chunkList k data).mapM fun c =>
    if c.length = k then Except.ok c.reverse else Except.error PyExc.structError).map List.flatten

/-- Crc.prepare from `checksum.py`: when the swap flag is set and the access
width is not 8, looks the access width up in the swapper table keyed by
16/32/64; a missing key is a Python `KeyError`. -/
def Crc.prepare (cfg : CrcConfig) (data : List Nat) : Except PyExc (List Nat) :=
  if cfg.swap = true then
    if cfg.access ≠ 8 then
      match cfg.access with
      | 16 => swapAccess 2 data
      | 32 => swapAccess 4 data
      | 64 => swapAccess 8 data
      | k => .error (.keyError k)
    else .ok data
  else .ok data

/-! ## Type registry, `datamodel.py` `ParamType` and `TYPE_DATA` -/

/-- Parameter types: the basic types plus the special GAPFILL and COMPLEX
tags (`datamodel.py` enums `BasicType`, `SpecialType`, `ParamType`). -/
inductive ParamType
  | UINT32
  | UINT8
  | UINT16
  | UINT64
  | INT8
  | INT16
  | INT32
  | INT64
  | FLOAT32
  | FLOAT64
  | UTF8
  | GAPFILL
  | COMPLEX
deriving DecidableEq, Repr

/-- Pack behaviour of a struct format character, standing in for the `fmt`
string of `TYPE_DATA` (`uint` and `sint` carry no data because the byte size
is a separate field, exactly as in the table). -/
inductive FmtKind
  | uint
  | sint
  | float
  | char
deriving DecidableEq, Repr

/-- Pendant of the named tuple `TypeData` of `datamodel.py` (the `ctype`
string is irrelevant here and omitted; `fmt` becomes `kind`). -/
structure TypeData where
  kind : FmtKind
  size : Nat
  width : Nat
  signed : Bool
deriving DecidableEq, Repr

/-- The `TYPE_DATA` table of `datamodel.py`.  GAPFILL and COMPLEX have no
entry, so looking them up is a Python `KeyError`, hence the `Option`. -/
def TYPE_DATA : ParamType → Option TypeData
  | .UINT32 => some ⟨.uint, 4, 10, false⟩
  | .UINT8 => some ⟨.uint, 1, 4, false⟩
  | .UINT16 => some ⟨.uint, 2, 6, false⟩
  | .UINT64 => some ⟨.uint, 8, 18, false⟩
  | .INT8 => some ⟨.sint, 1, 4, true⟩
  | .INT16 => some ⟨.sint, 2, 6, true⟩
  | .INT32 => some ⟨.sint, 4, 10, true⟩
  | .INT64 => some ⟨.sint, 8, 16, true⟩
  | .FLOAT32 => some ⟨.float, 4, 12, true⟩
  | .FLOAT64 => some ⟨.float, 8, 16, true⟩
  | .UTF8 => some ⟨.char, 1, 4, false⟩
  | .GAPFILL => none
  | .COMPLEX => none

/-- Python `struct.pack` of one scalar of the given parameter type in the
given byte order (the `fmt` built from `TYPE_DATA` in `byteconv.py` and
`datamodel.py`).  An integer argument for the `c` format or a float format
is not packable (`struct.error`; floats are outside the embedding). -/
def packScalar (pt : ParamType) (e : Endianness) (v : Int) : Except PyExc (List Nat) :=
  match TYPE_DATA pt with
  | none => .error (.keyError 0)
  | some td =>
    match td.kind with
    | .uint => packUnsigned td.size e v
    | .sint => packSigned td.size e v
    | .float => .error .floatUnsupported
    | .char => .error .structError

/-- Unpacked value as rendered by `ByteConvert.value_to_c`: an integer, or a
one-byte `bytes` object (the `c` format). -/
inductive CVal
  | int (v : Int)
  | blob (b : List Nat)
deriving DecidableEq, Repr

/-- Python `struct.unpack` of one chunk of `TYPE_DATA[pt].size` bytes. -/
def unpackOne (pt : ParamType) (e : Endianness) (chunk : List Nat) : Except PyExc CVal :=
  match TYPE_DATA pt with
  | none => .error (.keyError 0)
  | some td =>
    match td.kind with
    | .uint => .ok (.int (bytesToNatLE (orient e chunk)))
    | .sint =>
      let u := bytesToNatLE (orient e chunk)
      .ok (.int (if u < 2 ^ (8 * td.size - 1) then (u : Int) else (u : Int) - 2 ^ (8 * td.size)))
    | .float => .error .floatUnsupported
    | .char => .ok (.blob chunk)

/-- Python `struct.unpack(fmt, data)` where `fmt` repeats the type format
`len(data) / size` times (`ByteConvert.bytes_to_c_init`): `struct.error`
when the data length is not a multiple of the item size. -/
def structUnpack (pt : ParamType) (e : Endianness) (data : List Nat) : Except PyExc (List CVal) :=
  match TYPE_DATA pt with
  | none => .error (.keyError 0)
  | some td =>
    if data.length % td.size = 0 then
      (chunkList td.size data).mapM (unpackOne pt e)
    else
      .error .structError

/-! ## Parsed JSON values and `ByteConvert.json_to_bytes` -/

/-- Result of `json5.loads` on the textual value notation: an integer
literal, a string (kept as its UTF-8 code units), an array of integer
literals, or an object (payload irrelevant for the claims).  Python
booleans, float literals and arrays with non-numeric elements are not
needed by any claim and are omitted. -/
inductive JValue
  | num (n : Int)
  | str (bytes : List Nat)
  | arr (items : List Int)
  | obj
deriving DecidableEq, Repr

/-- ByteConvert.json_to_bytes from `byteconv.py`, applied to the already
parsed json value: arrays pack every element at the type format, numbers
pack one scalar, strings append their UTF-8 bytes plus one NUL byte (the
type format is ignored for strings, as in the source), anything else raises
`DocumentInvalid`. -/
def jsonToBytes (pt : ParamType) (e : Endianness) (v : JValue) : Except PyExc (List Nat) :=
  match v with
  | .arr items => (items.mapM (packScalar pt e)).map List.flatten
  | .num n => packScalar pt e n
  | .str s => .ok (s ++ [0])
  | .obj => .error (.documentInvalid .badValueKind)

/-! ## Rendering to C literals, `ByteConvert.value_to_c` and
`bytes_to_c_init`, and a parser for the emitted literals -/

/-- Character of one digit value below 16, uppercase (Python `%X`). -/
def digitChar16 (d : Nat) : Char :=
  if d < 10 then Char.ofNat (48 + d) else Char.ofNat (55 + d)

/-- Digit characters of `n` in base `b`, most significant first (the empty
base guard keeps the recursion well founded; both uses have `b ≥ 10`). -/
def natDigits (b : Nat) (n : Nat) : List Char :=
  if n < b ∨ b ≤ 1 then [digitChar16 n]
  else natDigits b (n / b) ++ [digitChar16 (n % b)]
termination_by n
decreasing_by
  exact Nat.div_lt_self (by omega) (by omega)

/-- Decimal rendering of an integer with Python `-` sign. -/
def decString (v : Int) : List Char :=
  if v < 0 then '-' :: natDigits 10 v.natAbs else natDigits 10 v.toNat

/-- Left padding with a given character up to a total width, the Python
format specifications `{v:0{w}X}` and `{v:>{w}}`. -/
def padLeftTo (c : Char) (w : Nat) (s : List Char) : List Char :=
  List.replicate (w - s.length) c ++ s

/-- Uppercase hex pair of one byte (Python `bytes.hex().upper()`). -/
def hexByte (b : Nat) : List Char :=
  [digitChar16 (b / 16 % 16), digitChar16 (b % 16)]

/-- ByteConvert.value_to_c from `byteconv.py`: a `bytes` value renders as
`0x` plus its uppercase hex pairs; a signed integer renders right justified
in the display width; an unsigned integer renders as zero padded hex of
twice the byte size (floats cannot appear, see `CVal`). -/
def valueToC (v : CVal) (td : TypeData) : List Char :=
  match v with
  | .blob b => '0' :: 'x' :: b.flatMap hexByte
  | .int n =>
    if td.signed then padLeftTo ' ' td.width (decString n)
    else '0' :: 'x' :: padLeftTo '0' (2 * td.size) (natDigits 16 n.toNat)

/-- Item loop of `ByteConvert.bytes_to_c_init`: separators `", "` after all
but the last element and a line break plus indent after every fourth. -/
def renderItems (td : TypeData) : Nat → List CVal → List Char
  | _, [] => []
  | _, [v] => valueToC v td
  | i, v :: rest =>
    valueToC v td ++ [',', ' '] ++ (if i % 4 = 3 then '\n' :: [' ', ' ', ' ', ' '] else [])
      ++ renderItems td (i + 1) rest

/-- ByteConvert.bytes_to_c_init from `byteconv.py`: unpack the raw data at
the type width and render the values, wrapped in braces when there is more
than one entry. -/
def bytesToCInit (pt : ParamType) (e : Endianness) (data : List Nat) : Except PyExc (List Char) :=
  match TYPE_DATA pt with
  | none => .error (.keyError 0)
  | some td => do
    let values ← structUnpack pt e data
    if 1 < values.length then
      .ok ('\n' :: Char.ofNat 123 :: '\n' :: [' ', ' ', ' ', ' ']
        ++ renderItems td 0 values ++ ['\n', Char.ofNat 125])
    else
      .ok (renderItems td 0 values)

/-- Numeric value of one character as a digit of the given base (decimal
digits, then the hex letters in both cases). -/
def digitVal (b : Nat) (c : Char) : Option Nat :=
  let v? :=
    if 48 ≤ c.toNat ∧ c.toNat ≤ 57 then some (c.toNat - 48)
    else if 65 ≤ c.toNat ∧ c.toNat ≤ 70 then some (c.toNat - 55)
    else if 97 ≤ c.toNat ∧ c.toNat ≤ 102 then some (c.toNat - 87)
    else none
  v?.bind fun v => if v < b then some v else none

/-- Consume a run of digits of base `b`, most significant first. -/
def parseNatAux (b : Nat) (acc : Nat) : List Char → Nat × List Char
  | [] => (acc, [])
  | c :: cs =>
    match digitVal b c with
    | some d => parseNatAux b (acc * b + d) cs
    | none => (acc, c :: cs)

/-- Parse a nonempty digit run of base `b`. -/
def parseNat (b : Nat) : List Char → Option (Nat × List Char)
  | [] => none
  | c :: cs => if (digitVal b c).isSome then some (parseNatAux b 0 (c :: cs)) else none

/-- Skip blanks and line breaks. -/
def skipWs : List Char → List Char
  | [] => []
  | c :: cs => if c = ' ' ∨ c = '\n' then skipWs cs else c :: cs

/-- Parse one optionally signed integer literal, decimal or `0x` hex. -/
def parseNumeral (cs : List Char) : Option (Int × List Char) :=
  match skipWs cs with
  | '-' :: rest =>
    (match rest with
     | '0' :: 'x' :: rest' => (parseNat 16 rest').map fun (n, r) => (-(n : Int), r)
     | _ => (parseNat 10 rest).map fun (n, r) => (-(n : Int), r))
  | '0' :: 'x' :: rest => (parseNat 16 rest).map fun (n, r) => ((n : Int), r)
  | other => (parseNat 10 other).map fun (n, r) => ((n : Int), r)

/-- Parse the items of a brace wrapped initializer list. -/
def parseItems : Nat → List Char → Option (List Int × List Char)
  | 0, _ => none
  | fuel + 1, cs => do
    let (n, rest) ← parseNumeral cs
    match skipWs rest with
    | ',' :: rest' => (parseItems fuel rest').map fun (ns, r) => (n :: ns, r)
    | c :: rest' => if c = Char.ofNat 125 then some ([n], rest') else none
    | [] => none

/-- Numeric reading of an emitted C initializer literal: a brace wrapped
comma separated list re-parses to an array, a bare numeral to a number.
This is the "re-parses numerically" notion of the round-trip property. -/
def cLiteralParse (cs : List Char) : Option JValue :=
  match skipWs cs with
  | c :: rest =>
    if c = Char.ofNat 123 then
      (parseItems (rest.length + 1) rest).bind fun (ns, r) =>
        if skipWs r = [] then some (.arr ns) else none
    else
      (parseNumeral (c :: rest)).bind fun (n, r) =>
        if skipWs r = [] then some (.num n) else none
  | [] => none

/-! ## Data model, `datamodel.py` -/

/-- Configuration of one CRC parameter, `datamodel.py` class `CrcData`
(the covered byte range is inclusive). -/
structure CrcData where
  crc_cfg : CrcConfig
  start : Nat
  «end» : Nat
deriving DecidableEq, Repr

/-- Version number data type. -/
structure Version where
  major : Nat
  minor : Nat
  version : Nat
deriving DecidableEq, Repr

/-- Parameter block header container. -/
structure BlockHeader where
  block_id : Nat
  version : Version
deriving DecidableEq, Repr

/-- Value stored by `Datastruct.__init__` in `filloption`: either the
original string (when the substring test against `"parent"` succeeds) or
the parsed fill byte. -/
inductive PyStrInt
  | str (s : List Char)
  | intv (n : Nat)
deriving DecidableEq, Repr

/-- Components of a struct, `datamodel.py` classes `Field`, `ArrayField`,
`Padding` and `CrcField` (after `__post_init__`, the stored type is the
`ParamType` of the same name). -/
inductive StructElement
  | field (name : String) (type : ParamType) (comment : Option String)
  | arrayField (name : String) (type : ParamType) (count : Nat) (comment : Option String)
  | padding (size : Nat)
  | crcField (name : String) (type : ParamType) (cfg : CrcConfig) (start : Nat) («end» : Nat)
deriving DecidableEq, Repr

/-- Name of a named struct element (`Field`, `ArrayField`, `CrcField`). -/
def elemName? : StructElement → Option String
  | .field n _ _ => some n
  | .arrayField n _ _ _ => some n
  | .crcField n _ _ _ _ => some n
  | .padding _ => none

/-- Struct type information, `datamodel.py` class `Datastruct`. -/
structure Datastruct where
  name : String
  fields : List StructElement
  filloption : PyStrInt
  comment : Option String
deriving DecidableEq, Repr

/-- Python `int(s)`: an optionally signed nonempty run of decimal digits. -/
def parsePyIntDec (s : List Char) : Option Int :=
  match s with
  | '-' :: rest => (parseNat 10 rest).bind fun (n, r) => if r = [] then some (-(n : Int)) else none
  | _ => (parseNat 10 s).bind fun (n, r) => if r = [] then some ((n : Int)) else none

/-- Python `int(s, 16)`: an optionally signed, optionally `0x` prefixed
nonempty run of hex digits. -/
def parsePyIntHex (s : List Char) : Option Int :=
  let core : List Char → Option Int := fun cs =>
    let cs := match cs with
      | '0' :: 'x' :: rest => rest
      | '0' :: 'X' :: rest => rest
      | other => other
    (parseNat 16 cs).bind fun (n, r) => if r = [] then some ((n : Int)) else none
  match s with
  | '-' :: rest => (core rest).map (-·)
  | _ => core s

/-- Datastruct.__init__ from `datamodel.py`.  The guard is the Python
expression `filloption not in ("parent")`: since `("parent")` is the plain
string, this is a substring test, so every substring of `"parent"` is kept
verbatim as the fill option; anything else is parsed as a decimal integer,
then as a hex integer, masked to one byte (an unparsable option raises
`ValueError`). -/
def mkDatastruct (name : String) (filloption : List Char) : Except PyExc Datastruct :=
  if filloption <:+: "parent".data then
    .ok ⟨name, [], .str filloption, none⟩
  else
    match parsePyIntDec filloption with
    | some n => .ok ⟨name, [], .intv ((n % 256).toNat), none⟩
    | none =>
      match parsePyIntHex filloption with
      | some n => .ok ⟨name, [], .intv ((n % 256).toNat), none⟩
      | none => .error .valueError

/-- Datastruct.get_field_names from `datamodel.py`: the names of the
`Field` and `ArrayField` elements, plus the `CrcField` names only when
`include_crcs` is set. -/
def Datastruct.getFieldNames (st : Datastruct) (include_crcs : Bool) : List String :=
  st.fields.filterMap fun f =>
    match f with
    | .field n _ _ => some n
    | .arrayField n _ _ _ => some n
    | .crcField n _ _ _ _ => if include_crcs then some n else none
    | .padding _ => none

/-- Parameter definition data container, `datamodel.py` class `Parameter`
(gap parameters are unnamed). -/
structure Parameter where
  offset : Nat
  name : Option String
  ptype : ParamType
  value : List Nat
  comment : Option String := none
  crc_cfg : Option CrcData := none
  datastruct : Option Datastruct := none
deriving DecidableEq, Repr

/-- Parameter.as_gap from `datamodel.py`: an unnamed GAPFILL parameter
whose bytes repeat the low eight bits of the pattern. -/
def Parameter.asGap (address length pattern : Nat) : Parameter :=
  ⟨address, none, .GAPFILL, List.replicate length (pattern &&& 0xFF), none, none, none⟩

/-- Block data container, `datamodel.py` class `Block`. -/
structure Block where
  addr : Nat
  name : String
  length : Nat
  header : Option BlockHeader := none
  endianess : Endianness
  fill : Nat
  parameter : List Parameter := []
  comment : Option String := none
deriving DecidableEq, Repr

/-- Block.__init__ from `datamodel.py` masks the fill pattern to one byte;
parameters start empty. -/
def Block.make (addr : Nat) (name : String) (length : Nat) (endianess : Endianness)
    (fill : Nat) : Block :=
  ⟨addr, name, length, none, endianess, fill &&& 0xFF, [], none⟩

/-- One 16 bit field of the header record (struct format `H`), with the
explicit truncation described in the module comment. -/
def pack16 (e : Endianness) (v : Nat) : List Nat :=
  orient e (natToBytesLE 2 (v % 2 ^ 16))

/-- One 32 bit field of the header record (struct format `I`). -/
def pack32 (e : Endianness) (v : Nat) : List Nat :=
  orient e (natToBytesLE 4 (v % 2 ^ 32))

/-- Block.get_header_bytes from `datamodel.py`: `struct.pack` with format
`HHHHII` in the block byte order over id, major, minor, version, a zero
reserved word and the block length.  Callers only invoke it when a header
is present; the `none` case is unreachable in the source. -/
def Block.getHeaderBytes (b : Block) : List Nat :=
  match b.header with
  | some h =>
    pack16 b.endianess h.block_id ++ pack16 b.endianess h.version.major ++
      pack16 b.endianess h.version.minor ++ pack16 b.endianess h.version.version ++
      pack32 b.endianess 0x00000000 ++ pack32 b.endianess b.length
  | none => []

/-- Header length added to the running address by `fill_gaps` (zero when
the block has no header). -/
def Block.headerSize (b : Block) : Nat :=
  if b.header.isSome then b.getHeaderBytes.length else 0

/-- Sorting key `attrgetter("offset")` of `fill_gaps`. -/
def paramLE (p q : Parameter) : Prop :=
  p.offset ≤ q.offset

instance : DecidableRel paramLE :=
  fun p q => inferInstanceAs (Decidable (p.offset ≤ q.offset))

instance : IsTotal Parameter paramLE :=
  ⟨fun p q => Nat.le_total p.offset q.offset⟩

instance : IsTrans Parameter paramLE :=
  ⟨fun _ _ _ h h' => Nat.le_trans h h'⟩

/-- Python `sorted(parameter, key=attrgetter("offset"))`.  Python `sorted`
is stable; `List.insertionSort` inserts every element in front of the first
later element it is `≤` to, which keeps equal keys in input order, so it
implements the same function. -/
def sortParams (l : List Parameter) : List Parameter :=
  List.insertionSort paramLE l

/-- Gap synthesis loop of `Block.fill_gaps`: walks the offset sorted
parameters with a running address, emits a gap (`Block._insert_gap`)
whenever a parameter starts beyond the running address, and advances the
running address past each parameter; returns the synthesized gaps in
emission order together with the final running address. -/
def gapWalk (fill : Nat) : List Parameter → Nat → List Parameter × Nat
  | [], run => ([], run)
  | p :: ps, run =>
    let gaps := if run < p.offset then [Parameter.asGap run (p.offset - run) fill] else []
    let (rest, fin) := gapWalk fill ps (p.offset + p.value.length)
    (gaps ++ rest, fin)

/-- Block.fill_gaps from `datamodel.py`: sort a copy of the parameters by
offset, walk it synthesizing gaps (appended to the parameter list), append
a tail gap up to the block end if needed, and re-sort the parameter list by
offset. -/
def Block.fillGaps (b : Block) : Block :=
  let param_list := sortParams b.parameter
  let run0 := b.addr + b.headerSize
  let (gaps, run) := gapWalk b.fill param_list run0
  let end_addr := b.addr + b.length
  let tail := if run < end_addr then [Parameter.asGap run (end_addr - run) b.fill] else []
  { b with parameter := sortParams (b.parameter ++ gaps ++ tail) }

/-- Block.get_bytes from `datamodel.py`: header bytes, if present, followed
by the value bytes of every parameter in list order. -/
def Block.getBytes (b : Block) : List Nat :=
  (if b.header.isSome then b.getHeaderBytes else []) ++ (b.parameter.map (·.value)).flatten

/-- Parameter loop of `Block.update_crcs`: for every parameter carrying a
CRC configuration, prepare the working buffer, checksum the slice
`buffer[start - addr : (start - addr) + (end - start) + 1]`, pack the
checksum at the parameter type in the block byte order, overwrite the
parameter value and patch the bytes back into the working buffer at
`offset - addr`.  Returns the updated parameters and buffer. -/
def updateCrcsGo (addr : Nat) (e : Endianness) :
    List Parameter → List Nat → Except PyExc (List Parameter × List Nat)
  | [], blk => .ok ([], blk)
  | p :: ps, blk =>
    match p.crc_cfg with
    | none => (updateCrcsGo addr e ps blk).map fun (rest, blk') => (p :: rest, blk')
    | some cfg => do
      let buffer ← Crc.prepare cfg.crc_cfg blk
      let start := cfg.start - addr
      let fin := start + (cfg.«end» - cfg.start)
      let crc_input := (buffer.drop start).take (fin + 1 - start)
      let checksum := crcChecksum cfg.crc_cfg crc_input
      let value ← packScalar p.ptype e (checksum : Int)
      let blk' := listSet blk (p.offset - addr) value
      let (rest, blk'') ← updateCrcsGo addr e ps blk'
      .ok ({ p with value := value } :: rest, blk'')

/-- Block.update_crcs from `datamodel.py`: serialize the block once with
`get_bytes`, then run the CRC loop over the parameters in list order. -/
def Block.updateCrcs (b : Block) : Except PyExc Block :=
  (updateCrcsGo b.addr b.endianess b.parameter b.getBytes).map fun (ps, _) =>
    { b with parameter := ps }

/-- Inclusive byte slice `l[lo ..= hi]` as written in the spec for the CRC
range (`[start - block.addr, end - block.addr]` inclusive). -/
def inclusiveSlice (l : List Nat) (lo hi : Nat) : List Nat :=
  (l.drop lo).take (hi + 1 - lo)

/-- Written from the spec of `update_crcs` (section 4.4): for every
parameter carrying CrcData, in the order given, run the configured prepare
over the buffer, checksum the inclusive slice
`[start - addr, end - addr]`, re-encode at the declared width in the block
byte order, overwrite the parameter value, and patch the same bytes back
into the working buffer at the parameter offset, so that a later CRC range
covering this parameter sees its final value. -/
def specCrcPass (addr : Nat) (e : Endianness) :
    List Parameter → List Nat → Except PyExc (List Parameter × List Nat)
  | [], buf => .ok ([], buf)
  | p :: ps, buf =>
    match p.crc_cfg with
    | none => (specCrcPass addr e ps buf).map fun (rest, buf') => (p :: rest, buf')
    | some cfg => do
      let prepared ← Crc.prepare cfg.crc_cfg buf
      let checksum := crcChecksum cfg.crc_cfg
        (inclusiveSlice prepared (cfg.start - addr) (cfg.«end» - addr))
      let newValue ← packScalar p.ptype e (checksum : Int)
      let (rest, buf') ← specCrcPass addr e ps (listSet buf (p.offset - addr) newValue)
      .ok ({ p with value := newValue } :: rest, buf')

/-- Written from the spec of `update_crcs` (section 4.4): serialize the
full block (header bytes, if present, followed by all parameter bytes in
offset order) into one buffer and evaluate the CRC bearing parameters in
parameter offset order, not declaration order. -/
def Block.updateCrcsOffsetOrder (b : Block) : Except PyExc Block :=
  let inOffsetOrder := sortParams b.parameter
  let buffer :=
    (if b.header.isSome then b.getHeaderBytes else []) ++ (inOffsetOrder.map (·.value)).flatten
  (specCrcPass b.addr b.endianess inOffsetOrder buffer).map fun (ps, _) =>
    { b with parameter := ps }

/-! ## Struct packing, `ByteConvert.fill_struct_from_json` -/

/-- Pack one scalar json value with `struct.pack` (a non integer argument
raises `struct.error` in Python). -/
def packJV (pt : ParamType) (e : Endianness) (v : JValue) : Except PyExc (List Nat) :=
  match v with
  | .num n => packScalar pt e n
  | _ => .error .structError

/-- Padding branch of `fill_struct_from_json` (`byteconv.py` lines 90-95):
a fill option equal to `"parent"` emits the block fill byte; otherwise the
stored fill option itself feeds a `bytearray` generator, which succeeds for
a parsed fill byte, consumes nothing when the padding size is zero, and
raises `TypeError` on a string fill option of positive size. -/
def paddingBytes (st : Datastruct) (blockfill : Nat) (size : Nat) : Except PyExc (List Nat) :=
  if st.filloption = .str "parent".data then
    .ok (List.replicate size blockfill)
  else
    match st.filloption with
    | .intv n => .ok (List.replicate size n)
    | .str _ => if size = 0 then .ok [] else .error .typeError

/-- Dictionary lookup `input_dict[name]` (a missing key is a `KeyError`;
the key set check makes this unreachable for named fields). -/
def dictGet (input : List (String × JValue)) (name : String) : Except PyExc JValue :=
  match input.lookup name with
  | some jv => .ok jv
  | none => .error (.keyErrorStr name)

/-- Field loop of `fill_struct_from_json`: emit bytes component by
component in declaration order, accumulating the already emitted prefix
(which the `CrcField` branch checksums). -/
def fillFieldsGo (st : Datastruct) (input : List (String × JValue)) (e : Endianness)
    (blockfill : Nat) : List Nat → List StructElement → Except PyExc (List Nat)
  | data, [] => .ok data
  | data, comp :: rest =>
    match comp with
    | .padding size => do
      let bs ← paddingBytes st blockfill size
      fillFieldsGo st input e blockfill (data ++ bs) rest
    | .field name t _ => do
      let jv ← dictGet input name
      let bs ← packJV t e jv
      fillFieldsGo st input e blockfill (data ++ bs) rest
    | .arrayField name t count _ => do
      let jv ← dictGet input name
      match jv with
      | .arr items =>
        if items.length ≠ count then .error (.documentInvalid (.arrayCount name))
        else do
          let bss ← items.mapM (packScalar t e)
          fillFieldsGo st input e blockfill (data ++ bss.flatten) rest
      | _ => .error (.documentInvalid .badArrayInput)
    | .crcField _ t cfg start fin => do
      let buffer ← Crc.prepare cfg data
      let crc_input := (buffer.drop start).take (fin + 1 - start)
      let checksum := crcChecksum cfg crc_input
      let byte_checksum ← packScalar t e (checksum : Int)
      fillFieldsGo st input e blockfill (data ++ byte_checksum) rest

/-- Python set equality of two name lists. -/
def sameStringSet (a b : List String) : Bool :=
  a.all b.contains && b.all a.contains

/-- ByteConvert.fill_struct_from_json from `byteconv.py`, applied to the
already parsed json object (the `isinstance(input_dict, dict)` guard is
discharged by the input type): validates that the input key set equals
`strct.get_field_names()` (which is called without `include_crcs`), then
packs the components in declaration order. -/
def fillStructFromJson (strct : Datastruct) (input : List (String × JValue)) (e : Endianness)
    (blockfill : Nat) : Except PyExc (List Nat) :=
  if sameStringSet (strct.getFieldNames false) (input.map Prod.fst) then
    fillFieldsGo strct input e blockfill [] strct.fields
  else
    .error (.documentInvalid (.keyMismatch strct.name))

/-! ## Containers, model and the Validator, `datamodel.py` -/

/-- Data container for a parameter block container. -/
structure Container where
  name : String
  addr : Nat
  blocks : List Block
deriving DecidableEq, Repr

/-- Top level model data container. -/
structure Model where
  name : String
  container : List Container
  datastructs : List Datastruct
deriving DecidableEq, Repr

/-- Kinds of error messages issued by the Validator, with the data
interpolated into the message text (the surrounding wording of each
message is abstracted away). -/
inductive VMsg
  | duplicateStruct (name : String)
  | duplicateField (name : String)
  | duplicateBlock (name : String) (addr : Nat)
  | duplicateParam (name : Option String) (offset : Nat)
  | paramOutOfRange (name : Option String) (relOffset : Nat)
  | paramExceeds (name : Option String) (excess : Nat)
  | paramOverlap (name : Option String) (withName : Option String) (relOffset : Nat)
  | headerOverlap (name : Option String)
  | blockOverlap (prevName blockName : String) (addr : Nat)
deriving DecidableEq, Repr

/-- One logged error: the context prefix built by `Validator.error` from
the walker context plus the message. -/
structure Finding where
  ctxContainer : Option String
  ctxBlock : Option String
  msg : VMsg
deriving DecidableEq, Repr

/-- Mutable state of the Validator walker. -/
structure VState where
  result : Bool
  findings : List Finding
  last_param : Option Parameter
  blockdict : List (String × Block)
  paramdict : List (Option String × Parameter)
  structdict : List (String × Datastruct)
  fielddict : List (String × StructElement)
deriving Repr

/-- Validator.error: log the message with the context prefix and clear the
result flag. -/
def vError (cc cb : Option String) (s : VState) (m : VMsg) : VState :=
  { s with findings := s.findings ++ [⟨cc, cb, m⟩], result := false }

/-- Validator.begin_struct: duplicate struct names are an error; the struct
dictionary is updated unconditionally and the field dictionary reset. -/
def beginStruct (s : VState) (st : Datastruct) : VState :=
  let s := if (s.structdict.lookup st.name).isSome then
    vError none none s (.duplicateStruct st.name) else s
  { s with structdict := (st.name, st) :: s.structdict, fielddict := [] }

/-- Validator.begin_field: duplicate names among the named elements of one
struct are an error. -/
def beginField (s : VState) (f : StructElement) : VState :=
  match elemName? f with
  | some n =>
    let s := if (s.fielddict.lookup n).isSome then vError none none s (.duplicateField n) else s
    { s with fielddict := (n, f) :: s.fielddict }
  | none => s

/-- Validator.begin_block: reset the per block state; a duplicate block
name within the container is an error, otherwise the block is recorded. -/
def beginBlock (cc : String) (s : VState) (blk : Block) : VState :=
  let s := { s with last_param := none, paramdict := [] }
  match s.blockdict.lookup blk.name with
  | some other => vError (some cc) (some blk.name) s (.duplicateBlock blk.name other.addr)
  | none => { s with blockdict := (blk.name, blk) :: s.blockdict }

/-- Duplicate parameter name check of `Validator.begin_parameter`. -/
def vCheckDupName (cc : String) (blk : Block) (p : Parameter) (s : VState) : VState :=
  match s.paramdict.lookup p.name with
  | some other => vError (some cc) (some blk.name) s (.duplicateParam p.name other.offset)
  | none => { s with paramdict := (p.name, p) :: s.paramdict }

/-- Block range checks of `Validator.begin_parameter` (an `if`/`elif`
pair: starting offset at or beyond the block end, otherwise end address
beyond the block end). -/
def vCheckRange (cc : String) (blk : Block) (p : Parameter) (s : VState) : VState :=
  if p.offset ≥ blk.addr + blk.length then
    vError (some cc) (some blk.name) s (.paramOutOfRange p.name (p.offset - blk.addr))
  else if blk.addr + blk.length < p.offset + p.value.length then
    vError (some cc) (some blk.name) s
      (.paramExceeds p.name (p.offset + p.value.length - (blk.addr + blk.length)))
  else s

/-- Adjacent overlap check of `Validator.begin_parameter` against the
`last_param` cursor. -/
def vCheckOverlap (cc : String) (blk : Block) (p : Parameter) (s : VState) : VState :=
  match s.last_param with
  | some lp =>
    if p.offset < lp.offset + lp.value.length then
      vError (some cc) (some blk.name) s (.paramOverlap p.name lp.name (lp.offset - blk.addr))
    else s
  | none => s

/-- Header region overlap check of `Validator.begin_parameter`. -/
def vCheckHeader (cc : String) (blk : Block) (p : Parameter) (s : VState) : VState :=
  if blk.header.isSome then
    if p.offset < blk.addr + blk.getHeaderBytes.length then
      vError (some cc) (some blk.name) s (.headerOverlap p.name)
    else s
  else s

/-- Validator.begin_parameter: duplicate name, block range, overlap with
the previous (non gap) parameter and overlap with the header region are
each checked and logged independently (the first three steps do not touch
`last_param`, so reading it in the overlap check matches the source);
the parameter then becomes the new `last_param`. -/
def beginParameter (cc : String) (blk : Block) (s : VState) (p : Parameter) : VState :=
  let s := vCheckDupName cc blk p s
  let s := vCheckRange cc blk p s
  let s := vCheckOverlap cc blk p s
  let s := vCheckHeader cc blk p s
  { s with last_param := some p }

/-- Walker loop inside one block: GAPFILL parameters take the gap hooks,
which the Validator does not override, every other parameter runs
`begin_parameter`. -/
def runBlock (cc : String) (s : VState) (blk : Block) : VState :=
  let s := beginBlock cc s blk
  blk.parameter.foldl (fun s p => if p.ptype = .GAPFILL then s else beginParameter cc blk s p) s

/-- Sorting key `attrgetter("addr")` of `Validator.end_container`. -/
def blockLE (b1 b2 : Block) : Prop :=
  b1.addr ≤ b2.addr

instance : DecidableRel blockLE :=
  fun b1 b2 => inferInstanceAs (Decidable (b1.addr ≤ b2.addr))

/-- Overlap scan of `Validator.end_container` over the blocks sorted by
address, carrying the previous block. -/
def blockOverlapWalk (cc : String) : Option Block → List Block → VState → VState
  | _, [], s => s
  | prev?, blk :: rest, s =>
    let s :=
      match prev? with
      | some prev =>
        if blk.addr < prev.addr + prev.length then
          vError (some cc) none s (.blockOverlap prev.name blk.name blk.addr)
        else s
      | none => s
    blockOverlapWalk cc (some blk) rest s

/-- Validator.end_container (the walker has already cleared the block
context when it runs). -/
def endContainer (cc : String) (s : VState) (c : Container) : VState :=
  blockOverlapWalk cc none (List.insertionSort blockLE c.blocks) s

/-- Walker loop over one container: `begin_container` resets the block
dictionary, then every block is visited, then `end_container` runs. -/
def runContainer (s : VState) (c : Container) : VState :=
  let s := { s with blockdict := [] }
  let s := c.blocks.foldl (runBlock c.name) s
  endContainer c.name s c

/-- Walker loop over one struct and its fields. -/
def runStructPhase (s : VState) (st : Datastruct) : VState :=
  let s := beginStruct s st
  st.fields.foldl beginField s

/-- Walker.run driving the Validator: structs first, then containers. -/
def runValidator (m : Model) : VState :=
  let s0 : VState := ⟨true, [], none, [], [], [], []⟩
  let s := m.datastructs.foldl runStructPhase s0
  m.container.foldl runContainer s

/-- Model.validate from `datamodel.py`: run the Validator and return its
accumulated result flag. -/
def Model.validate (m : Model) : Bool :=
  (runValidator m).result

/-! ## Predicates used by the claims -/

/-- Two parameters occupy disjoint byte ranges. -/
def disjointParams (p q : Parameter) : Prop :=
  p.offset + p.value.length ≤ q.offset ∨ q.offset + q.value.length ≤ p.offset

instance : DecidableRel disjointParams :=
  fun _ _ => inferInstanceAs (Decidable (_ ∨ _))

/-- Strict offset order on parameters. -/
def paramLT (p q : Parameter) : Prop :=
  p.offset < q.offset

instance : DecidableRel paramLT :=
  fun p q => inferInstanceAs (Decidable (p.offset < q.offset))

instance : IsAntisymm Parameter paramLT :=
  ⟨fun _ _ h h' => absurd h' (Nat.lt_asymm h)⟩

/-- Exact tiling of the byte range `[a, e)` by a parameter list in order:
the first parameter starts at `a`, every later parameter starts exactly
where its predecessor ends, and the last one ends exactly at `e`. -/
def tilesFrom : Nat → List Parameter → Nat → Bool
  | a, [], e => a == e
  | a, p :: ps, e => (p.offset == a) && tilesFrom (a + p.value.length) ps e

/-- Parameters of a block that are not synthesized gaps. -/
def nonGapParams (b : Block) : List Parameter :=
  b.parameter.filter fun p => p.ptype ≠ ParamType.GAPFILL

/-- Interleaving of the sorted parameters with the gaps that `gapWalk`
emits for them (proof helper: this is the offset ordered form of the final
parameter list of `fill_gaps`). -/
def weave (fill : Nat) : Nat → List Parameter → List Parameter
  | _, [] => []
  | run, p :: ps =>
    (if run < p.offset then [Parameter.asGap run (p.offset - run) fill] else []) ++
      p :: weave fill (p.offset + p.value.length) ps

/-- Parameter types packed as integers. -/
def isIntType (pt : ParamType) : Bool :=
  match TYPE_DATA pt with
  | some td => td.kind == .uint || td.kind == .sint
  | none => false

/-- Representable integer range of an integer parameter type. -/
def inIntRange (pt : ParamType) (v : Int) : Prop :=
  match TYPE_DATA pt with
  | some td =>
    match td.kind with
    | .uint => 0 ≤ v ∧ v < (2 : Int) ^ (8 * td.size)
    | .sint => -((2 : Int) ^ (8 * td.size - 1)) ≤ v ∧ v < (2 : Int) ^ (8 * td.size - 1)
    | _ => False
  | none => False

deriving instance DecidableEq for Except

/-! ## Concrete instances used by witnesses and counterexamples -/

/-- Header used by the C5 scenario. -/
def hdrC5 : BlockHeader :=
  ⟨0xAFFE, ⟨0x1234, 0xabcd, 0x5678⟩⟩

/-- Little-endian block of the C5 scenario. -/
def blkC5LE : Block :=
  ⟨0x100, "hdr", 0xaabbccdd, some hdrC5, .LE, 0, [], none⟩

/-- Big-endian block of the C5 scenario. -/
def blkC5BE : Block :=
  ⟨0x100, "hdr", 0xaabbccdd, some hdrC5, .BE, 0, [], none⟩

/-- Small block with a header for the C5 witness. -/
def blkC5W : Block :=
  ⟨0, "w", 5, some ⟨1, ⟨2, 3, 4⟩⟩, .LE, 0, [], none⟩

/-- Simple 8 bit CRC configuration (poly 7, no reflection, no xor, access
width 8, swap disabled) used by small scenarios. -/
def cfgZero : CrcConfig :=
  ⟨7, 8, 0, false, false, false, 8, false⟩

/-- Struct with one scalar field and one CRC field (C7 scenario). -/
def strctC7 : Datastruct :=
  ⟨"s", [.field "a" .UINT8 none, .crcField "c" .UINT8 cfgZero 0 0], .intv 0, none⟩

/-- Struct with fill option `"par"` and one zero size padding. -/
def strctC10 : Datastruct :=
  ⟨"d", [.padding 0], .str ['p', 'a', 'r'], none⟩

/-- Struct with fill option `"par"` and one positive size padding. -/
def strctC10W : Datastruct :=
  ⟨"d", [.padding 1], .str ['p', 'a', 'r'], none⟩

/-- Nonempty parameter at offset 0 (C1 counterexample). -/
def paramB1 : Parameter :=
  ⟨0, some "B", .UINT8, [1, 2, 3], none, none, none⟩

/-- Parameter with an empty value at offset 0 (C1 counterexample). -/
def paramA1 : Parameter :=
  ⟨0, some "A", .UINT8, [], none, none, none⟩

/-- Block whose parameters are pairwise disjoint and in range but contain
an empty value (C1 counterexample). -/
def blkC1Bad : Block :=
  ⟨0, "bad", 3, none, .LE, 0xAB, [paramB1, paramA1], none⟩

/-- Parameter for the C1 witness block. -/
def paramC1W : Parameter :=
  ⟨1, some "P", .UINT8, [5, 6], none, none, none⟩

/-- Block for the C1 witness: one parameter, gaps on both sides. -/
def blkC1W : Block :=
  ⟨0, "wb", 4, none, .LE, 0xAB, [paramC1W], none⟩

/-- Plain value parameter of the C2/C9 witness block. -/
def paramC2v : Parameter :=
  ⟨0x10, some "v", .UINT8, [0xAA], none, none, none⟩

/-- First CRC parameter (covers the value byte). -/
def paramC2c1 : Parameter :=
  ⟨0x11, some "c1", .UINT8, [0], none, some ⟨cfgZero, 0x10, 0x10⟩, none⟩

/-- Second CRC parameter (covers the value byte and the first CRC). -/
def paramC2c2 : Parameter :=
  ⟨0x12, some "c2", .UINT8, [0], none, some ⟨cfgZero, 0x10, 0x11⟩, none⟩

/-- Sorted block with two chained CRC parameters (C2/C9 witness). -/
def blkC2W : Block :=
  ⟨0x10, "w", 3, none, .LE, 0, [paramC2v, paramC2c1, paramC2c2], none⟩

/-- Result of `updateCrcs` on `blkC2W` (C9 witness). -/
def blkC9R : Block :=
  ⟨0x10, "w", 3, none, .LE, 0,
    [paramC2v, { paramC2c1 with value := [0x5F] }, { paramC2c2 with value := [0] }], none⟩

/-- Overlapping parameters of the C4 witness. -/
def paramQ1 : Parameter :=
  ⟨1, some "p1", .UINT8, [5, 6], none, none, none⟩

/-- Second overlapping parameter of the C4 witness. -/
def paramQ2 : Parameter :=
  ⟨1, some "p2", .UINT8, [7], none, none, none⟩

/-- First block of the C4 witness (name clash with the second). -/
def blkC4a : Block :=
  ⟨0, "B", 1, none, .LE, 0, [], none⟩

/-- Second block of the C4 witness, with overlapping parameters. -/
def blkC4b : Block :=
  ⟨1, "B", 2, none, .LE, 0, [paramQ1, paramQ2], none⟩

/-- Model with a duplicate block name and overlapping parameters. -/
def mdlC4 : Model :=
  ⟨"m", [⟨"c", 0, [blkC4a, blkC4b]⟩], []⟩

/-- Result of a computation is not the key mismatch `DocumentInvalid` of
the struct field check (used to show that error is raised by the key set
validation alone). -/
def noKeyMismatch {α : Type} (r : Except PyExc α) : Prop :=
  ∀ nm, r ≠ .error (.documentInvalid (.keyMismatch nm))

/-- CRC range of a parameter lies at or after the block base address and
is not reversed (`start ≤ end`); in Python these are the inputs on which
the integer arithmetic of `update_crcs` matches the natural subtraction of
the embedding. -/
def crcRangeOk (addr : Nat) (p : Parameter) : Bool :=
  match p.crc_cfg with
  | some cfg => decide (addr ≤ cfg.start) && decide (cfg.start ≤ cfg.«end»)
  | none => true

/-- One parameter ends at or before the next one starts (the condition the
adjacent overlap check of `begin_parameter` verifies). -/
def endLE (p q : Parameter) : Prop :=
  p.offset + p.value.length ≤ q.offset

instance : DecidableRel endLE :=
  fun p q => inferInstanceAs (Decidable (p.offset + p.value.length ≤ q.offset))

instance : IsTrans Parameter endLE :=
  ⟨fun _ _ _ h h' => Nat.le_trans h (Nat.le_trans (Nat.le_add_right _ _) h')⟩

/-- The walker context cursor as a list (empty when no parameter has been
visited yet). -/
def optList : Option Parameter → List Parameter
  | none => []
  | some p => [p]

/-- The message reports a duplicate block name. -/
def isDuplicateBlockMsg : VMsg → Bool
  | .duplicateBlock _ _ => true
  | _ => false

/-- The message reports overlapping parameters. -/
def isParamOverlapMsg : VMsg → Bool
  | .paramOverlap _ _ _ => true
  | _ => false

/-- Everything about a parameter except a CRC value overwrite is
preserved: offset, name, type tag, comment, crc configuration and struct
reference are unchanged, and the value too when the parameter carries no
CrcData. -/
def crcFrameEq (p p' : Parameter) : Prop :=
  p'.offset = p.offset ∧ p'.name = p.name ∧ p'.ptype = p.ptype ∧ p'.comment = p.comment ∧
    p'.crc_cfg = p.crc_cfg ∧ p'.datastruct = p.datastruct ∧
    (p.crc_cfg = none → p'.value = p.value)

/-! ## Helper lemmas: bytes and packing -/

theorem chunkAux_nil (s : Nat) : ∀ fuel, chunkAux s fuel [] = [] := by
  intro fuel
  cases fuel <;> rfl

theorem natToBytesLE_length (s : Nat) : ∀ n, (natToBytesLE s n).length = s := by
  induction s with
  | zero => intro n; rfl
  | succ s ih => intro n; simp [natToBytesLE, ih]

theorem orient_length (e : Endianness) (l : List Nat) : (orient e l).length = l.length := by
  cases e <;> simp [orient]

theorem bytesToNatLE_natToBytesLE (s : Nat) :
    ∀ n, n < 2 ^ (8 * s) → bytesToNatLE (natToBytesLE s n) = n := by
  induction s with
  | zero => intro n h; simp at h; simp [natToBytesLE, bytesToNatLE, h]
  | succ s ih =>
    intro n h
    have hdiv : n / 256 < 2 ^ (8 * s) := by
      rw [Nat.div_lt_iff_lt_mul (by norm_num)]
      calc n < 2 ^ (8 * (s + 1)) := h
        _ = 2 ^ (8 * s) * 256 := by ring
    simp [natToBytesLE, bytesToNatLE, ih _ hdiv]
    omega

theorem orient_orient (e : Endianness) (l : List Nat) : orient e (orient e l) = l := by
  cases e <;> simp [orient]

theorem chunkList_self (l : List Nat) (s : Nat) (hlen : l.length = s) (hpos : 0 < s) :
    chunkList s l = [l] := by
  unfold chunkList
  rw [hlen]
  rcases s with _ | s
  · omega
  rcases l with _ | ⟨b, bs⟩
  · simp at hlen
  · simp only [chunkAux]
    rw [List.take_of_length_le (by omega), List.drop_eq_nil_of_le (by omega), chunkAux_nil]

/-! ## C3: CRC-32 conformance vector -/

/-- C3: the CRC engine configured with width 32, polynomial 0x04C11DB7,
seed 0xFFFFFFFF, input and output reflection, final xor with the all-ones
mask, access width 1 and swap disabled yields
`checksum(prepare(b"123456789")) = 0xCBF43926`. -/
theorem C3_crc32_conformance :
    (Crc.prepare ⟨0x04C11DB7, 32, 0xFFFFFFFF, true, true, true, 1, false⟩
        [0x31, 0x32, 0x33, 0x34, 0x35, 0x36, 0x37, 0x38, 0x39]).map
      (crcChecksum ⟨0x04C11DB7, 32, 0xFFFFFFFF, true, true, true, 1, false⟩) =
      .ok 0xCBF43926 := by
  decide

/-! ## C5: block header serialization -/

/-- C5: the 16 byte header of a block with id 0xAFFE, version
(0x1234, 0xabcd, 0x5678) and length 0xaabbccdd serializes to the expected
bytes in both byte orders; in general the reserved word is always zero and
the header length is always 16. -/
theorem C5_header_bytes :
    blkC5LE.getHeaderBytes =
      [0xfe, 0xaf, 0x34, 0x12, 0xcd, 0xab, 0x78, 0x56, 0, 0, 0, 0, 0xdd, 0xcc, 0xbb, 0xaa] ∧
    blkC5BE.getHeaderBytes =
      [0xaf, 0xfe, 0x12, 0x34, 0xab, 0xcd, 0x56, 0x78, 0, 0, 0, 0, 0xaa, 0xbb, 0xcc, 0xdd] ∧
    ∀ b : Block, b.header.isSome = true →
      b.getHeaderBytes.length = 16 ∧ (b.getHeaderBytes.drop 8).take 4 = [0, 0, 0, 0] := by
  refine ⟨by decide, by decide, ?_⟩
  intro b hb
  rcases hh : b.header with _ | h
  · rw [hh] at hb; simp at hb
  cases he : b.endianess <;>
    simp [Block.getHeaderBytes, hh, he, pack16, pack32, orient, natToBytesLE]

/-- Witness for the general part of C5 at a concrete block. -/
theorem C5_header_bytes_witness :
    blkC5W.getHeaderBytes.length = 16 ∧ (blkC5W.getHeaderBytes.drop 8).take 4 = [0, 0, 0, 0] :=
  C5_header_bytes.2.2 blkC5W (by decide)

/-! ## C8: swap with an undefined access width -/

/-- C8 counterexample: with swap enabled and access width 2 (a value the
CrcConfig docstring itself names), `prepare` fails with the unhandled
`KeyError` of the swapper dictionary lookup, not with the `ConfigError`
the claim requires; no ConfigError type exists in the code. -/
theorem C8_counterexample :
    Crc.prepare ⟨0x04C11DB7, 32, 0xFFFFFFFF, true, true, true, 2, true⟩ [0xAA, 0xBB] =
      .error (.keyError 2) ∧
    (Except.error (PyExc.keyError 2) : Except PyExc (List Nat)) ≠ .error .configError := by
  decide

/-- C8 amended: when swap is enabled and the access width has no swap
strategy (neither the pass-through value 8 nor a swapper key 16/32/64),
`prepare` fails with the `KeyError` of the dictionary lookup carrying the
access width. -/
theorem C8_swap_unknown_access (cfg : CrcConfig) (data : List Nat)
    (hswap : cfg.swap = true) (h8 : cfg.access ≠ 8) (h16 : cfg.access ≠ 16)
    (h32 : cfg.access ≠ 32) (h64 : cfg.access ≠ 64) :
    Crc.prepare cfg data = .error (.keyError cfg.access) := by
  unfold Crc.prepare
  rw [hswap]
  simp only [if_pos rfl, if_pos h8]
  split <;> simp_all

/-- Witness for C8 amended at access width 4 (another docstring value). -/
theorem C8_swap_unknown_access_witness :
    Crc.prepare ⟨0x04C11DB7, 32, 0xFFFFFFFF, true, true, true, 4, true⟩ [1, 2, 3, 4] =
      .error (.keyError 4) :=
  C8_swap_unknown_access _ [1, 2, 3, 4] (by decide) (by decide) (by decide) (by decide)
    (by decide)

/-! ## C10: substring fill options -/

/-- C10 counterexample: for the fill option `"par"` (a proper substring of
`"parent"`, stored verbatim as the claim describes), packing a Padding
element of size zero succeeds with no emitted bytes, because the bytearray
generator is never forced; so "packing any Padding element of such a
struct ... fails" is false for size zero. -/
theorem C10_counterexample :
    mkDatastruct "d" ['p', 'a', 'r'] = .ok ⟨"d", [], .str ['p', 'a', 'r'], none⟩ ∧
    fillStructFromJson strctC10 [] .LE 0xFF = .ok [] := by
  decide

/-- C10 amended: for every proper substring `s` of `"parent"`, the
Datastruct constructor stores the fill option string unchanged (neither
parsed to a fill byte nor equal to `"parent"`), and packing any Padding
element of positive size of such a struct takes the literal fill branch
and fails with `TypeError` instead of emitting fill bytes. -/
theorem C10_substring_filloption (s : List Char) (hsub : s <:+: "parent".data)
    (hne : s ≠ "parent".data) (nm : String) :
    mkDatastruct nm s = .ok ⟨nm, [], .str s, none⟩ ∧
    ∀ (st : Datastruct) (bf k : Nat), st.filloption = .str s → 0 < k →
      paddingBytes st bf k = .error .typeError := by
  constructor
  · unfold mkDatastruct
    rw [if_pos hsub]
  · intro st bf k hopt hk
    unfold paddingBytes
    rw [hopt, if_neg (by simp [hne])]
    have hk0 : k ≠ 0 := by omega
    simp [hk0]

/-- Witness for C10 amended at the substring `"par"` and padding size 1. -/
theorem C10_substring_filloption_witness :
    mkDatastruct "d" ['p', 'a', 'r'] = .ok ⟨"d", [], .str ['p', 'a', 'r'], none⟩ ∧
    paddingBytes strctC10W 0xFF 1 = .error .typeError := by
  have h := C10_substring_filloption ['p', 'a', 'r'] (by decide) (by decide) "d"
  exact ⟨h.1, h.2 strctC10W 0xFF 1 (by decide) (by decide)⟩

/-! ## C7: struct key set validation -/

theorem noKM_ok {α : Type} (a : α) : noKeyMismatch (Except.ok a) := by
  intro nm h
  cases h

theorem noKM_error {e : PyExc} (h : ∀ nm, e ≠ .documentInvalid (.keyMismatch nm)) :
    noKeyMismatch (Except.error e : Except PyExc (List Nat)) := by
  intro nm hh
  exact h nm (by injection hh)

theorem noKM_bind {α β : Type} {x : Except PyExc α} {g : α → Except PyExc β}
    (hx : noKeyMismatch x) (hg : ∀ a, noKeyMismatch (g a)) : noKeyMismatch (x.bind g) := by
  cases x with
  | ok a => exact hg a
  | error e =>
    intro nm h
    simp only [Except.bind] at h
    have he : e = PyExc.documentInvalid (DocTag.keyMismatch nm) := by injection h
    exact hx nm (by rw [he])

theorem noKM_map {α β : Type} {x : Except PyExc α} (f : α → β)
    (hx : noKeyMismatch x) : noKeyMismatch (x.map f) := by
  cases x with
  | ok a => intro nm h; cases h
  | error e =>
    intro nm h
    simp only [Except.map] at h
    have he : e = PyExc.documentInvalid (DocTag.keyMismatch nm) := by injection h
    exact hx nm (by rw [he])

theorem noKM_mapM {α : Type} (f : α → Except PyExc (List Nat))
    (hf : ∀ a, noKeyMismatch (f a)) : ∀ l : List α, noKeyMismatch (l.mapM f) := by
  intro l
  induction l with
  | nil => exact noKM_ok _
  | cons a l ih =>
    rw [List.mapM_cons]
    exact noKM_bind (hf a) fun b => noKM_bind ih fun bs => noKM_ok _

theorem noKM_packScalar (pt : ParamType) (e : Endianness) (v : Int) :
    noKeyMismatch (packScalar pt e v) := by
  intro nm
  unfold packScalar packUnsigned packSigned
  repeat' split
  all_goals simp

theorem noKM_paddingBytes (st : Datastruct) (bf k : Nat) :
    noKeyMismatch (paddingBytes st bf k) := by
  intro nm
  unfold paddingBytes
  repeat' split
  all_goals simp

theorem noKM_dictGet (input : List (String × JValue)) (name : String) :
    noKeyMismatch (dictGet input name) := by
  intro nm
  unfold dictGet
  split <;> simp

theorem noKM_swapAccess (k : Nat) (data : List Nat) :
    noKeyMismatch (swapAccess k data) := by
  unfold swapAccess
  refine noKM_map _ (noKM_mapM _ ?_ _)
  intro c
  intro nm
  split <;> simp

theorem noKM_prepare (cfg : CrcConfig) (data : List Nat) :
    noKeyMismatch (Crc.prepare cfg data) := by
  unfold Crc.prepare
  split
  · split
    · split
      · exact noKM_swapAccess _ _
      · exact noKM_swapAccess _ _
      · exact noKM_swapAccess _ _
      · intro nm; simp
    · exact noKM_ok _
  · exact noKM_ok _

theorem noKM_packJV (pt : ParamType) (e : Endianness) (v : JValue) :
    noKeyMismatch (packJV pt e v) := by
  intro nm
  unfold packJV
  split
  · exact noKM_packScalar _ _ _ nm
  · simp

theorem noKM_fillFieldsGo (st : Datastruct) (input : List (String × JValue)) (e : Endianness)
    (bf : Nat) : ∀ (fields : List StructElement) (data : List Nat),
    noKeyMismatch (fillFieldsGo st input e bf data fields) := by
  intro fields
  induction fields with
  | nil => intro data; exact noKM_ok _
  | cons comp rest ih =>
    intro data
    cases comp with
    | padding size =>
      exact noKM_bind (noKM_paddingBytes _ _ _) fun bs => ih _
    | field name t c =>
      exact noKM_bind (noKM_dictGet _ _) fun jv => noKM_bind (noKM_packJV _ _ _) fun bs => ih _
    | arrayField name t count c =>
      refine noKM_bind (noKM_dictGet _ _) fun jv => ?_
      show noKeyMismatch (match jv with
        | .arr items =>
          if items.length ≠ count then .error (.documentInvalid (.arrayCount name))
          else do
            let bss ← items.mapM (packScalar t e)
            fillFieldsGo st input e bf (data ++ bss.flatten) rest
        | _ => .error (.documentInvalid .badArrayInput))
      split
      · split
        · intro nm; simp
        · exact noKM_bind (noKM_mapM _ (fun a => noKM_packScalar _ _ _) _) fun bss => ih _
      · intro nm; simp
    | crcField name t cfg start fin =>
      exact noKM_bind (noKM_prepare _ _) fun buffer =>
        noKM_bind (noKM_packScalar _ _ _) fun bs => ih _

/-- C7 amended: `fill_struct_from_json` fails with the key mismatch
`FormatError` exactly when the input key set differs from the struct field
name set computed WITHOUT CrcField names (`get_field_names()` defaults to
`include_crcs=False`); when the sets agree, the key validation passes and
packing proceeds (later steps can only raise other error kinds). -/
theorem C7_key_set_check (strct : Datastruct) (input : List (String × JValue))
    (e : Endianness) (bf : Nat) :
    fillStructFromJson strct input e bf =
        .error (.documentInvalid (.keyMismatch strct.name)) ↔
      sameStringSet (strct.getFieldNames false) (input.map Prod.fst) = false := by
  unfold fillStructFromJson
  by_cases hk : sameStringSet (strct.getFieldNames false) (input.map Prod.fst) = true
  · rw [if_pos hk, hk]
    simp only [Bool.true_eq_false, iff_false]
    exact noKM_fillFieldsGo strct input e bf strct.fields [] strct.name
  · rw [if_neg hk]
    simp [Bool.not_eq_true] at hk
    simp [hk]

/-- C7 counterexample: a struct with a scalar field `a` and a CRC field
`c`.  The input supplies only the key `a`: the key set differs from the
named field set that includes CrcField names (the set the claim requires),
yet the operation succeeds, packing the field and computing the CRC. -/
theorem C7_counterexample :
    fillStructFromJson strctC7 [("a", JValue.num 1)] .LE 0 = .ok [1, 7] ∧
    sameStringSet (strctC7.getFieldNames true) ["a"] = false := by
  decide

/-! ## Except reduction lemmas -/

theorem exceptBind_ok {α β : Type} (a : α) (f : α → Except PyExc β) :
    ((Except.ok a : Except PyExc α) >>= f) = f a :=
  rfl

theorem exceptBind_error {α β : Type} (e : PyExc) (f : α → Except PyExc β) :
    ((Except.error e : Except PyExc α) >>= f) = Except.error e :=
  rfl

theorem exceptMap_ok {α β : Type} (a : α) (f : α → β) :
    Except.map f (Except.ok a : Except PyExc α) = Except.ok (f a) :=
  rfl

theorem exceptMap_error {α β : Type} (e : PyExc) (f : α → β) :
    Except.map f (Except.error e : Except PyExc α) = (Except.error e : Except PyExc β) :=
  rfl

/-! ## C2: update_crcs evaluates in offset order over a patched buffer -/

theorem updateCrcsGo_eq_spec (addr : Nat) (e : Endianness) :
    ∀ (ps : List Parameter) (buf : List Nat), (∀ p ∈ ps, crcRangeOk addr p = true) →
      updateCrcsGo addr e ps buf = specCrcPass addr e ps buf := by
  intro ps
  induction ps with
  | nil => intro buf _; rfl
  | cons p ps ih =>
    intro buf h
    have hps : ∀ q ∈ ps, crcRangeOk addr q = true := fun q hq => h q (List.mem_cons_of_mem _ hq)
    cases hc : p.crc_cfg with
    | none =>
      simp only [updateCrcsGo, specCrcPass, hc]
      rw [ih _ hps]
    | some cfg =>
      have hp := h p (List.mem_cons_self p ps)
      unfold crcRangeOk at hp
      rw [hc] at hp
      simp only [Bool.and_eq_true, decide_eq_true_eq] at hp
      simp only [updateCrcsGo, specCrcPass, hc]
      cases hprep : Crc.prepare cfg.crc_cfg buf with
      | error e' => simp only [hprep, exceptBind_error]
      | ok buffer =>
        have hslice : (buffer.drop (cfg.start - addr)).take
              (cfg.start - addr + (cfg.«end» - cfg.start) + 1 - (cfg.start - addr)) =
            inclusiveSlice buffer (cfg.start - addr) (cfg.«end» - addr) := by
          unfold inclusiveSlice
          congr 1
          omega
        simp only [hprep, exceptBind_ok]
        rw [hslice]
        cases hpack : packScalar p.ptype e
            ((crcChecksum cfg.crc_cfg
              (inclusiveSlice buffer (cfg.start - addr) (cfg.«end» - addr)) : Nat) : Int) with
        | error e' => simp only [hpack, exceptBind_error]
        | ok value =>
          simp only [hpack, exceptBind_ok]
          rw [ih _ hps]

/-- C2: on a block whose parameter list is already sorted by offset (the
state `fill_gaps` leaves behind) and whose CRC ranges lie inside the block
address space, `update_crcs` coincides with the specification pass
`updateCrcsOffsetOrder`, which serializes the block in offset order and
evaluates the CRC bearing parameters in offset order over a working buffer
that is re-prepared after each patch, so a later CRC whose range covers an
earlier CRC parameter reads the earlier final (patched) value. -/
theorem C2_update_crcs_offset_order (b : Block)
    (hsorted : List.Sorted paramLE b.parameter)
    (hrange : ∀ p ∈ b.parameter, crcRangeOk b.addr p = true) :
    b.updateCrcs = b.updateCrcsOffsetOrder := by
  unfold Block.updateCrcs Block.updateCrcsOffsetOrder
  rw [show sortParams b.parameter = b.parameter from hsorted.insertionSort_eq]
  rw [show b.getBytes =
    (if b.header.isSome then b.getHeaderBytes else []) ++ (b.parameter.map (·.value)).flatten
    from rfl]
  rw [updateCrcsGo_eq_spec b.addr b.endianess b.parameter _ hrange]

/-- Witness for C2: a sorted block with a value parameter and two chained
CRC parameters, the second covering the first. -/
theorem C2_update_crcs_offset_order_witness :
    blkC2W.updateCrcs = blkC2W.updateCrcsOffsetOrder :=
  C2_update_crcs_offset_order blkC2W (by decide) (by decide)

/-! ## C9: update_crcs mutates only CRC parameter values -/

theorem crcFrameEq_refl (p : Parameter) : crcFrameEq p p :=
  ⟨rfl, rfl, rfl, rfl, rfl, rfl, fun _ => rfl⟩

theorem updateCrcsGo_frame (addr : Nat) (e : Endianness) :
    ∀ (ps : List Parameter) (buf : List Nat) (ps' : List Parameter) (buf' : List Nat),
      updateCrcsGo addr e ps buf = .ok (ps', buf') → List.Forall₂ crcFrameEq ps ps' := by
  intro ps
  induction ps with
  | nil =>
    intro buf ps' buf' h
    simp only [updateCrcsGo, Except.ok.injEq, Prod.mk.injEq] at h
    rw [← h.1]
    exact List.Forall₂.nil
  | cons p ps ih =>
    intro buf ps' buf' h
    cases hc : p.crc_cfg with
    | none =>
      simp only [updateCrcsGo, hc] at h
      cases hrec : updateCrcsGo addr e ps buf with
      | error e' => rw [hrec] at h; simp only [exceptMap_error] at h; cases h
      | ok pr =>
        obtain ⟨rest, blk'⟩ := pr
        rw [hrec] at h
        simp only [exceptMap_ok, Except.ok.injEq, Prod.mk.injEq] at h
        rw [← h.1]
        exact List.Forall₂.cons (crcFrameEq_refl p) (ih _ _ _ hrec)
    | some cfg =>
      simp only [updateCrcsGo, hc] at h
      cases hprep : Crc.prepare cfg.crc_cfg buf with
      | error e' => rw [hprep] at h; simp only [exceptBind_error] at h; cases h
      | ok buffer =>
        rw [hprep] at h
        simp only [exceptBind_ok] at h
        cases hpack : packScalar p.ptype e
            ((crcChecksum cfg.crc_cfg ((buffer.drop (cfg.start - addr)).take
              (cfg.start - addr + (cfg.«end» - cfg.start) + 1 - (cfg.start - addr))) : Nat) :
              Int) with
        | error e' => rw [hpack] at h; simp only [exceptBind_error] at h; cases h
        | ok value =>
          rw [hpack] at h
          simp only [exceptBind_ok] at h
          cases hrec : updateCrcsGo addr e ps (listSet buf (p.offset - addr) value) with
          | error e' => rw [hrec] at h; simp only [exceptBind_error] at h; cases h
          | ok pr =>
            obtain ⟨rest, blk''⟩ := pr
            rw [hrec] at h
            simp only [exceptBind_ok, Except.ok.injEq, Prod.mk.injEq] at h
            rw [← h.1]
            refine List.Forall₂.cons ?_ (ih _ _ _ hrec)
            exact ⟨rfl, rfl, rfl, rfl, hc.symm, rfl, fun hn => by rw [hc] at hn; cases hn⟩

/-- C9: whenever `update_crcs` completes, every parameter keeps its
offset, name, type tag, comment, crc configuration and struct reference,
and every parameter without CrcData keeps its value byte for byte; the CRC
overwrite is the only value mutation. -/
theorem C9_update_crcs_frame (b b' : Block) (h : b.updateCrcs = .ok b') :
    List.Forall₂ crcFrameEq b.parameter b'.parameter := by
  unfold Block.updateCrcs at h
  cases hgo : updateCrcsGo b.addr b.endianess b.parameter b.getBytes with
  | error e' => rw [hgo] at h; simp only [exceptMap_error] at h; cases h
  | ok pr =>
    obtain ⟨ps, buf⟩ := pr
    rw [hgo] at h
    simp only [exceptMap_ok, Except.ok.injEq] at h
    have hb' : b'.parameter = ps := by rw [← h]
    rw [hb']
    exact updateCrcsGo_frame b.addr b.endianess b.parameter b.getBytes ps buf hgo

/-- Witness for C9 at the chained CRC block. -/
theorem C9_update_crcs_frame_witness :
    List.Forall₂ crcFrameEq blkC2W.parameter blkC9R.parameter :=
  C9_update_crcs_frame blkC2W blkC9R (by decide)

/-! ## C4: structural lemmas about the Validator walk -/

theorem vError_mem (cc cb : Option String) (s : VState) (m : VMsg) (x : Finding)
    (hx : x ∈ s.findings) : x ∈ (vError cc cb s m).findings := by
  simp only [vError, List.mem_append]
  exact Or.inl hx

theorem vCheckDupName_shape (cc : String) (blk : Block) (p : Parameter) (s : VState) :
    (∀ x ∈ s.findings, x ∈ (vCheckDupName cc blk p s).findings) ∧
    (s.result = false → (vCheckDupName cc blk p s).result = false) ∧
    (vCheckDupName cc blk p s).last_param = s.last_param ∧
    (vCheckDupName cc blk p s).blockdict = s.blockdict := by
  unfold vCheckDupName
  cases List.lookup p.name s.paramdict <;> simp [vError]
  exact fun x hx => Or.inl hx

theorem vCheckRange_shape (cc : String) (blk : Block) (p : Parameter) (s : VState) :
    (∀ x ∈ s.findings, x ∈ (vCheckRange cc blk p s).findings) ∧
    (s.result = false → (vCheckRange cc blk p s).result = false) ∧
    (vCheckRange cc blk p s).last_param = s.last_param ∧
    (vCheckRange cc blk p s).blockdict = s.blockdict := by
  unfold vCheckRange
  repeat' split
  all_goals simp [vError]
  all_goals exact fun x hx => Or.inl hx

theorem vCheckOverlap_shape (cc : String) (blk : Block) (p : Parameter) (s : VState) :
    (∀ x ∈ s.findings, x ∈ (vCheckOverlap cc blk p s).findings) ∧
    (s.result = false → (vCheckOverlap cc blk p s).result = false) ∧
    (vCheckOverlap cc blk p s).last_param = s.last_param ∧
    (vCheckOverlap cc blk p s).blockdict = s.blockdict := by
  unfold vCheckOverlap
  repeat' split
  all_goals simp [vError]
  all_goals exact fun x hx => Or.inl hx

theorem vCheckHeader_shape (cc : String) (blk : Block) (p : Parameter) (s : VState) :
    (∀ x ∈ s.findings, x ∈ (vCheckHeader cc blk p s).findings) ∧
    (s.result = false → (vCheckHeader cc blk p s).result = false) ∧
    (vCheckHeader cc blk p s).last_param = s.last_param ∧
    (vCheckHeader cc blk p s).blockdict = s.blockdict := by
  unfold vCheckHeader
  repeat' split
  all_goals simp [vError]
  all_goals exact fun x hx => Or.inl hx

theorem beginParameter_mono (cc : String) (blk : Block) (p : Parameter) (s : VState)
    (x : Finding) (hx : x ∈ s.findings) : x ∈ (beginParameter cc blk s p).findings := by
  unfold beginParameter
  simp only [VState.findings]
  exact (vCheckHeader_shape cc blk p _).1 _
    ((vCheckOverlap_shape cc blk p _).1 _
      ((vCheckRange_shape cc blk p _).1 _ ((vCheckDupName_shape cc blk p s).1 _ hx)))

theorem beginParameter_false (cc : String) (blk : Block) (p : Parameter) (s : VState)
    (hs : s.result = false) : (beginParameter cc blk s p).result = false := by
  unfold beginParameter
  simp only [VState.result]
  exact (vCheckHeader_shape cc blk p _).2.1
    ((vCheckOverlap_shape cc blk p _).2.1
      ((vCheckRange_shape cc blk p _).2.1 ((vCheckDupName_shape cc blk p s).2.1 hs)))

theorem beginParameter_last (cc : String) (blk : Block) (p : Parameter) (s : VState) :
    (beginParameter cc blk s p).last_param = some p :=
  rfl

theorem beginParameter_blockdict (cc : String) (blk : Block) (p : Parameter) (s : VState) :
    (beginParameter cc blk s p).blockdict = s.blockdict := by
  unfold beginParameter
  simp only [VState.blockdict]
  rw [(vCheckHeader_shape cc blk p _).2.2.2, (vCheckOverlap_shape cc blk p _).2.2.2,
    (vCheckRange_shape cc blk p _).2.2.2, (vCheckDupName_shape cc blk p s).2.2.2]

theorem beginBlock_mono (cc : String) (blk : Block) (s : VState) (x : Finding)
    (hx : x ∈ s.findings) : x ∈ (beginBlock cc s blk).findings := by
  unfold beginBlock
  cases hlk : List.lookup blk.name s.blockdict <;> simp [vError, hlk, hx]

theorem beginBlock_false (cc : String) (blk : Block) (s : VState)
    (hs : s.result = false) : (beginBlock cc s blk).result = false := by
  unfold beginBlock
  cases hlk : List.lookup blk.name s.blockdict <;> simp [vError, hlk, hs]

theorem beginBlock_last (cc : String) (blk : Block) (s : VState) :
    (beginBlock cc s blk).last_param = none := by
  unfold beginBlock
  cases hlk : List.lookup blk.name s.blockdict <;> simp [vError, hlk]

theorem foldl_mono {β : Type} (step : VState → β → VState)
    (hstep : ∀ x s f, f ∈ s.findings → f ∈ (step s x).findings) :
    ∀ (l : List β) (s : VState) (f : Finding), f ∈ s.findings → f ∈ (l.foldl step s).findings := by
  intro l
  induction l with
  | nil => intro s f hf; exact hf
  | cons x xs ih => intro s f hf; exact ih _ _ (hstep x s f hf)

theorem foldl_false {β : Type} (step : VState → β → VState)
    (hstep : ∀ x s, s.result = false → (step s x).result = false) :
    ∀ (l : List β) (s : VState), s.result = false → (l.foldl step s).result = false := by
  intro l
  induction l with
  | nil => intro s hs; exact hs
  | cons x xs ih => intro s hs; exact ih _ (hstep x s hs)

theorem paramStep_mono (cc : String) (blk : Block) (p : Parameter) (s : VState) (x : Finding)
    (hx : x ∈ s.findings) :
    x ∈ ((if p.ptype = .GAPFILL then s else beginParameter cc blk s p)).findings := by
  split
  · exact hx
  · exact beginParameter_mono cc blk p s x hx

theorem paramStep_false (cc : String) (blk : Block) (p : Parameter) (s : VState)
    (hs : s.result = false) :
    ((if p.ptype = .GAPFILL then s else beginParameter cc blk s p)).result = false := by
  split
  · exact hs
  · exact beginParameter_false cc blk p s hs

theorem runBlock_mono (cc : String) (blk : Block) (s : VState) (x : Finding)
    (hx : x ∈ s.findings) : x ∈ (runBlock cc s blk).findings := by
  unfold runBlock
  exact foldl_mono _ (fun p s f hf => paramStep_mono cc blk p s f hf) _ _ _
    (beginBlock_mono cc blk s x hx)

theorem runBlock_false (cc : String) (blk : Block) (s : VState)
    (hs : s.result = false) : (runBlock cc s blk).result = false := by
  unfold runBlock
  exact foldl_false _ (fun p s hf => paramStep_false cc blk p s hf) _ _
    (beginBlock_false cc blk s hs)

theorem blockOverlapWalk_mono (cc : String) :
    ∀ (bs : List Block) (prev : Option Block) (s : VState) (x : Finding),
      x ∈ s.findings → x ∈ (blockOverlapWalk cc prev bs s).findings := by
  intro bs
  induction bs with
  | nil => intro prev s x hx; exact hx
  | cons b bs ih =>
    intro prev s x hx
    unfold blockOverlapWalk
    apply ih
    rcases prev with _ | p
    · exact hx
    · simp only []
      split
      · exact vError_mem _ _ _ _ _ hx
      · exact hx

theorem blockOverlapWalk_false (cc : String) :
    ∀ (bs : List Block) (prev : Option Block) (s : VState),
      s.result = false → (blockOverlapWalk cc prev bs s).result = false := by
  intro bs
  induction bs with
  | nil => intro prev s hs; exact hs
  | cons b bs ih =>
    intro prev s hs
    unfold blockOverlapWalk
    apply ih
    rcases prev with _ | p
    · exact hs
    · simp only []
      split
      · simp [vError]
      · exact hs

theorem endContainer_mono (cc : String) (c : Container) (s : VState) (x : Finding)
    (hx : x ∈ s.findings) : x ∈ (endContainer cc s c).findings :=
  blockOverlapWalk_mono cc _ none s x hx

theorem endContainer_false (cc : String) (c : Container) (s : VState)
    (hs : s.result = false) : (endContainer cc s c).result = false :=
  blockOverlapWalk_false cc _ none s hs

theorem runContainer_mono (c : Container) (s : VState) (x : Finding)
    (hx : x ∈ s.findings) : x ∈ (runContainer s c).findings := by
  unfold runContainer
  exact endContainer_mono _ _ _ _
    (foldl_mono _ (fun blk s f hf => runBlock_mono c.name blk s f hf) _ _ _ hx)

theorem runContainer_false (c : Container) (s : VState)
    (hs : s.result = false) : (runContainer s c).result = false := by
  unfold runContainer
  exact endContainer_false _ _ _
    (foldl_false _ (fun blk s hf => runBlock_false c.name blk s hf) _ _ hs)

theorem paramFold_blockdict (cc : String) (blk : Block) :
    ∀ (l : List Parameter) (s : VState),
      (l.foldl (fun s p => if p.ptype = .GAPFILL then s else beginParameter cc blk s p)
        s).blockdict = s.blockdict := by
  intro l
  induction l with
  | nil => intro s; rfl
  | cons p ps ih =>
    intro s
    rw [List.foldl_cons, ih]
    split
    · rfl
    · exact beginParameter_blockdict cc blk p s

theorem runBlock_dupFound (cc : String) (s : VState) (blk : Block)
    (h : (s.blockdict.lookup blk.name).isSome = true) :
    (∃ x ∈ (runBlock cc s blk).findings, isDuplicateBlockMsg x.msg = true) ∧
    (runBlock cc s blk).result = false := by
  rcases hlk : List.lookup blk.name s.blockdict with _ | other
  · rw [hlk] at h
    simp at h
  · have hb : beginBlock cc s blk =
        vError (some cc) (some blk.name) { s with last_param := none, paramdict := [] }
          (.duplicateBlock blk.name other.addr) := by
      unfold beginBlock
      simp only [hlk]
    constructor
    · refine ⟨⟨some cc, some blk.name, .duplicateBlock blk.name other.addr⟩, ?_, rfl⟩
      unfold runBlock
      apply foldl_mono _ (fun p s f hf => paramStep_mono cc blk p s f hf)
      rw [hb]
      simp [vError]
    · unfold runBlock
      apply foldl_false _ (fun p s hf => paramStep_false cc blk p s hf)
      rw [hb]
      simp [vError]

theorem lookup_cons_isSome (k k' : String) (v : Block) (d : List (String × Block)) :
    ((((k, v) :: d).lookup k').isSome = true) ↔ (k' = k ∨ (d.lookup k').isSome = true) := by
  by_cases hk : k' = k
  · simp [List.lookup, hk]
  · have hbeq : (k' == k) = false := by
      simp [hk]
    simp [List.lookup, hbeq, hk]

theorem blocksFold_dup (cc : String) :
    ∀ (bs : List Block) (s : VState),
      (¬ (bs.map (fun b => b.name)).Nodup ∨
        ∃ b ∈ bs, (s.blockdict.lookup b.name).isSome = true) →
      (∃ x ∈ (bs.foldl (runBlock cc) s).findings, isDuplicateBlockMsg x.msg = true) ∧
      (bs.foldl (runBlock cc) s).result = false := by
  intro bs
  induction bs with
  | nil =>
    intro s h
    rcases h with h | ⟨b, hb, _⟩
    · simp at h
    · exact absurd hb (List.not_mem_nil b)
  | cons b bs ih =>
    intro s h
    rw [List.foldl_cons]
    by_cases hlk : (s.blockdict.lookup b.name).isSome = true
    · have hfound := runBlock_dupFound cc s b hlk
      obtain ⟨⟨x, hx, hdup⟩, hres⟩ := hfound
      exact ⟨⟨x, foldl_mono _ (fun blk s f hf => runBlock_mono cc blk s f hf) bs _ x hx, hdup⟩,
        foldl_false _ (fun blk s hf => runBlock_false cc blk s hf) bs _ hres⟩
    · have hnone : List.lookup b.name s.blockdict = none := by
        rcases hl : List.lookup b.name s.blockdict with _ | o
        · rfl
        · rw [hl] at hlk; simp at hlk
      have hdict : (runBlock cc s b).blockdict = (b.name, b) :: s.blockdict := by
        unfold runBlock
        rw [paramFold_blockdict]
        unfold beginBlock
        simp only [hnone]
      apply ih
      rcases h with h | ⟨b', hb', hsome⟩
      · rw [List.map_cons, List.nodup_cons] at h
        by_cases hnd : (bs.map (fun b => b.name)).Nodup
        · right
          have hmem : b.name ∈ bs.map (fun b => b.name) := by
            by_contra hc
            exact h ⟨hc, hnd⟩
          obtain ⟨b', hb', hname⟩ := List.mem_map.mp hmem
          refine ⟨b', hb', ?_⟩
          rw [hdict, lookup_cons_isSome]
          exact Or.inl hname
        · exact Or.inl hnd
      · rcases List.mem_cons.mp hb' with hbb | hbs
        · rw [hbb] at hsome
          exact absurd hsome hlk
        · right
          refine ⟨b', hbs, ?_⟩
          rw [hdict, lookup_cons_isSome]
          exact Or.inr hsome

theorem vCheckOverlap_found (cc : String) (blk : Block) (p : Parameter) (s : VState)
    (lp : Parameter) (hlp : s.last_param = some lp)
    (hov : p.offset < lp.offset + lp.value.length) :
    (∃ x ∈ (vCheckOverlap cc blk p s).findings, isParamOverlapMsg x.msg = true) ∧
    (vCheckOverlap cc blk p s).result = false := by
  unfold vCheckOverlap
  rw [hlp]
  constructor
  · refine ⟨⟨some cc, some blk.name, .paramOverlap p.name lp.name (lp.offset - blk.addr)⟩,
      ?_, rfl⟩
    simp [hov, vError]
  · simp [hov, vError]

theorem beginParameter_overlapFound (cc : String) (blk : Block) (p : Parameter) (s : VState)
    (lp : Parameter) (hlp : s.last_param = some lp)
    (hov : p.offset < lp.offset + lp.value.length) :
    (∃ x ∈ (beginParameter cc blk s p).findings, isParamOverlapMsg x.msg = true) ∧
    (beginParameter cc blk s p).result = false := by
  have h2 : (vCheckRange cc blk p (vCheckDupName cc blk p s)).last_param = some lp := by
    rw [(vCheckRange_shape cc blk p _).2.2.1, (vCheckDupName_shape cc blk p s).2.2.1, hlp]
  have hf := vCheckOverlap_found cc blk p _ lp h2 hov
  constructor
  · obtain ⟨x, hx, hmsg⟩ := hf.1
    exact ⟨x, (vCheckHeader_shape cc blk p _).1 x hx, hmsg⟩
  · exact (vCheckHeader_shape cc blk p _).2.1 hf.2

theorem overlapScan (cc : String) (blk : Block) :
    ∀ (q : List Parameter) (s : VState),
      List.Chain' endLE (optList s.last_param ++ q) ∨
      ((∃ x ∈ (q.foldl (beginParameter cc blk) s).findings, isParamOverlapMsg x.msg = true) ∧
        (q.foldl (beginParameter cc blk) s).result = false) := by
  intro q
  induction q with
  | nil =>
    intro s
    left
    cases s.last_param <;> simp [optList]
  | cons p q ih =>
    intro s
    rcases hl : s.last_param with _ | lp
    · rcases ih (beginParameter cc blk s p) with hch | hfound
      · left
        rw [beginParameter_last] at hch
        simpa [optList] using hch
      · right
        rw [List.foldl_cons]
        exact hfound
    · by_cases hov : p.offset < lp.offset + lp.value.length
      · right
        have hf := beginParameter_overlapFound cc blk p s lp hl hov
        rw [List.foldl_cons]
        obtain ⟨⟨x, hx, hmsg⟩, hres⟩ := hf
        exact ⟨⟨x, foldl_mono _ (fun r s f hf => beginParameter_mono cc blk r s f hf) q _ x hx,
          hmsg⟩, foldl_false _ (fun r s hf => beginParameter_false cc blk r s hf) q _ hres⟩
      · rcases ih (beginParameter cc blk s p) with hch | hfound
        · left
          rw [beginParameter_last] at hch
          simp only [optList, List.cons_append, List.nil_append] at hch ⊢
          rw [List.chain'_cons]
          exact ⟨Nat.le_of_not_lt hov, hch⟩
        · right
          rw [List.foldl_cons]
          exact hfound

theorem foldl_skip_filter (cc : String) (blk : Block) :
    ∀ (l : List Parameter) (s : VState),
      l.foldl (fun s p => if p.ptype = .GAPFILL then s else beginParameter cc blk s p) s =
        (l.filter fun p => p.ptype ≠ ParamType.GAPFILL).foldl (beginParameter cc blk) s := by
  intro l
  induction l with
  | nil => intro s; rfl
  | cons p ps ih =>
    intro s
    rw [List.foldl_cons]
    by_cases hp : p.ptype = ParamType.GAPFILL
    · rw [if_pos hp]
      rw [show (p :: ps).filter (fun p => decide (p.ptype ≠ ParamType.GAPFILL)) =
        ps.filter (fun p => decide (p.ptype ≠ ParamType.GAPFILL)) from by simp [hp]]
      exact ih s
    · rw [if_neg hp]
      rw [show (p :: ps).filter (fun p => decide (p.ptype ≠ ParamType.GAPFILL)) =
        p :: ps.filter (fun p => decide (p.ptype ≠ ParamType.GAPFILL)) from by simp [hp]]
      rw [List.foldl_cons]
      exact ih _

theorem runBlock_overlapFound (cc : String) (s : VState) (blk : Block)
    (h : ¬ List.Pairwise disjointParams (nonGapParams blk)) :
    (∃ x ∈ (runBlock cc s blk).findings, isParamOverlapMsg x.msg = true) ∧
    (runBlock cc s blk).result = false := by
  unfold runBlock
  rw [foldl_skip_filter]
  rcases overlapScan cc blk (nonGapParams blk) (beginBlock cc s blk) with hch | hfound
  · exfalso
    rw [beginBlock_last] at hch
    simp only [optList, List.nil_append] at hch
    have hpw : List.Pairwise endLE (nonGapParams blk) := List.chain'_iff_pairwise.mp hch
    exact h (hpw.imp fun hle => Or.inl hle)
  · exact hfound

theorem containersFold_reach (P : VMsg → Bool) :
    ∀ (cs : List Container) (s : VState) (c : Container), c ∈ cs →
      (∀ s', (∃ x ∈ (runContainer s' c).findings, P x.msg = true) ∧
        (runContainer s' c).result = false) →
      (∃ x ∈ (cs.foldl runContainer s).findings, P x.msg = true) ∧
        (cs.foldl runContainer s).result = false := by
  intro cs
  induction cs with
  | nil => intro s c hc _; exact absurd hc (List.not_mem_nil c)
  | cons c' cs ih =>
    intro s c hc hstep
    rw [List.foldl_cons]
    rcases List.mem_cons.mp hc with hcc | hcs
    · obtain ⟨⟨x, hx, hmsg⟩, hres⟩ := hcc ▸ hstep s
      exact ⟨⟨x, foldl_mono _ (fun cx sx f hf => runContainer_mono cx sx f hf) cs _ x hx, hmsg⟩,
        foldl_false _ (fun cx sx hf => runContainer_false cx sx hf) cs _ hres⟩
    · exact ih _ c hcs hstep

theorem blocksFold_reach (cc : String) (P : VMsg → Bool) :
    ∀ (bs : List Block) (s : VState) (b : Block), b ∈ bs →
      (∀ s', (∃ x ∈ (runBlock cc s' b).findings, P x.msg = true) ∧
        (runBlock cc s' b).result = false) →
      (∃ x ∈ (bs.foldl (runBlock cc) s).findings, P x.msg = true) ∧
        (bs.foldl (runBlock cc) s).result = false := by
  intro bs
  induction bs with
  | nil => intro s b hb _; exact absurd hb (List.not_mem_nil b)
  | cons b' bs ih =>
    intro s b hb hstep
    rw [List.foldl_cons]
    rcases List.mem_cons.mp hb with hbb | hbs
    · obtain ⟨⟨x, hx, hmsg⟩, hres⟩ := hbb ▸ hstep s
      exact ⟨⟨x, foldl_mono _ (fun bx sx f hf => runBlock_mono cc bx sx f hf) bs _ x hx, hmsg⟩,
        foldl_false _ (fun bx sx hf => runBlock_false cc bx sx hf) bs _ hres⟩
    · exact ih _ b hbs hstep

theorem runContainer_dup (c : Container) (hnd : ¬ (c.blocks.map (fun b => b.name)).Nodup) :
    ∀ s, (∃ x ∈ (runContainer s c).findings, isDuplicateBlockMsg x.msg = true) ∧
      (runContainer s c).result = false := by
  intro s
  unfold runContainer
  obtain ⟨⟨x, hx, hmsg⟩, hres⟩ :=
    blocksFold_dup c.name c.blocks { s with blockdict := [] } (Or.inl hnd)
  exact ⟨⟨x, endContainer_mono _ _ _ _ hx, hmsg⟩, endContainer_false _ _ _ hres⟩

theorem runContainer_overlap (c : Container) (b : Block) (hb : b ∈ c.blocks)
    (hov : ¬ List.Pairwise disjointParams (nonGapParams b)) :
    ∀ s, (∃ x ∈ (runContainer s c).findings, isParamOverlapMsg x.msg = true) ∧
      (runContainer s c).result = false := by
  intro s
  unfold runContainer
  obtain ⟨⟨x, hx, hmsg⟩, hres⟩ :=
    blocksFold_reach c.name isParamOverlapMsg c.blocks { s with blockdict := [] } b hb
      (fun s' => runBlock_overlapFound c.name s' b hov)
  exact ⟨⟨x, endContainer_mono _ _ _ _ hx, hmsg⟩, endContainer_false _ _ _ hres⟩

/-- C4: for every model with a duplicate block name inside one container
and a pair of overlapping (non gap) parameters inside one block, the
Validator returns False, and the log contains at least one duplicate block
finding and at least one parameter overlap finding: the Validator
accumulates all findings rather than stopping at the first.  The embedded
walk is a total function, which captures that the Validator never raises. -/
theorem C4_validator_exhaustive (m : Model)
    (hdup : ∃ c ∈ m.container, ¬ (c.blocks.map (fun b => b.name)).Nodup)
    (hov : ∃ c ∈ m.container, ∃ b ∈ c.blocks,
      ¬ List.Pairwise disjointParams (nonGapParams b)) :
    m.validate = false ∧
    (∃ f ∈ (runValidator m).findings, isDuplicateBlockMsg f.msg = true) ∧
    (∃ f ∈ (runValidator m).findings, isParamOverlapMsg f.msg = true) := by
  obtain ⟨c1, hc1, hnd⟩ := hdup
  obtain ⟨c2, hc2, b2, hb2, hov2⟩ := hov
  have h1 := containersFold_reach isDuplicateBlockMsg m.container
    (m.datastructs.foldl runStructPhase ⟨true, [], none, [], [], [], []⟩) c1 hc1
    (runContainer_dup c1 hnd)
  have h2 := containersFold_reach isParamOverlapMsg m.container
    (m.datastructs.foldl runStructPhase ⟨true, [], none, [], [], [], []⟩) c2 hc2
    (runContainer_overlap c2 b2 hb2 hov2)
  exact ⟨h1.2, h1.1, h2.1⟩

/-- Witness for C4 at a concrete model: container `c` with two blocks
named `B`, the second containing two overlapping parameters. -/
theorem C4_validator_exhaustive_witness :
    ((∃ c ∈ mdlC4.container, ¬ (c.blocks.map (fun b => b.name)).Nodup) ∧
      (∃ c ∈ mdlC4.container, ∃ b ∈ c.blocks,
        ¬ List.Pairwise disjointParams (nonGapParams b))) ∧
    (mdlC4.validate = false ∧
      (∃ f ∈ (runValidator mdlC4).findings, isDuplicateBlockMsg f.msg = true) ∧
      (∃ f ∈ (runValidator mdlC4).findings, isParamOverlapMsg f.msg = true)) :=
  ⟨⟨by decide, by decide⟩, C4_validator_exhaustive mdlC4 (by decide) (by decide)⟩

/-! ## C1: fill_gaps tiles the block -/

theorem tilesFrom_append (l1 : List Parameter) :
    ∀ (l2 : List Parameter) (a m e : Nat), tilesFrom a l1 m = true → tilesFrom m l2 e = true →
      tilesFrom a (l1 ++ l2) e = true := by
  induction l1 with
  | nil =>
    intro l2 a m e h1 h2
    simp only [tilesFrom, beq_iff_eq] at h1
    rw [List.nil_append, h1]
    exact h2
  | cons p l1 ih =>
    intro l2 a m e h1 h2
    simp only [tilesFrom, Bool.and_eq_true, beq_iff_eq] at h1 ⊢
    exact ⟨h1.1, ih l2 _ m e h1.2 h2⟩

theorem tilesFrom_lb (l : List Parameter) :
    ∀ (a e : Nat), tilesFrom a l e = true → ∀ p ∈ l, a ≤ p.offset := by
  induction l with
  | nil => intro a e _ p hp; exact absurd hp (List.not_mem_nil p)
  | cons q l ih =>
    intro a e h p hp
    simp only [tilesFrom, Bool.and_eq_true, beq_iff_eq] at h
    rcases List.mem_cons.mp hp with hq | hl
    · rw [hq, h.1]
    · exact Nat.le_trans (Nat.le_add_right _ _) (ih _ _ h.2 p hl)

theorem tilesFrom_sum (l : List Parameter) :
    ∀ (a e : Nat), tilesFrom a l e = true →
      a + (l.map fun p => p.value.length).sum = e := by
  induction l with
  | nil =>
    intro a e h
    simp only [tilesFrom, beq_iff_eq] at h
    simpa using h
  | cons p l ih =>
    intro a e h
    simp only [tilesFrom, Bool.and_eq_true, beq_iff_eq] at h
    have := ih _ _ h.2
    simp only [List.map_cons, List.sum_cons]
    omega

theorem tilesFrom_pairwiseLT (l : List Parameter) :
    ∀ (a e : Nat), tilesFrom a l e = true → (∀ p ∈ l, p.value ≠ []) →
      l.Pairwise paramLT := by
  induction l with
  | nil => intro _ _ _ _; exact List.Pairwise.nil
  | cons p l ih =>
    intro a e h hne
    simp only [tilesFrom, Bool.and_eq_true, beq_iff_eq] at h
    refine List.Pairwise.cons ?_ (ih _ _ h.2 fun q hq => hne q (List.mem_cons_of_mem _ hq))
    intro q hq
    have hlb := tilesFrom_lb l _ _ h.2 q hq
    have hplen : 0 < p.value.length :=
      List.length_pos.mpr (hne p (List.mem_cons_self p l))
    unfold paramLT
    omega

theorem sorted_le_of_pairwiseLT {l1 l2 : List Parameter} (hperm : l1.Perm l2)
    (h1 : l1.Pairwise paramLT) (h2 : List.Sorted paramLE l2) : l2.Pairwise paramLT := by
  have hmapnd : (l1.map fun p => p.offset).Pairwise (· < ·) := by
    rw [List.pairwise_map]
    exact h1
  have hnd2 : (l2.map fun p => p.offset).Pairwise (· ≠ ·) := by
    have : (l1.map fun p => p.offset).Pairwise (· ≠ ·) :=
      hmapnd.imp fun hlt => Nat.ne_of_lt hlt
    exact ((hperm.map fun p => p.offset).pairwise_iff fun hab => Ne.symm hab).mp this
  have hne2 : l2.Pairwise fun p q => p.offset ≠ q.offset := by
    rw [← List.pairwise_map (f := fun p : Parameter => p.offset)]
    exact hnd2
  exact (h2.and hne2).imp fun hpq => Nat.lt_of_le_of_ne hpq.1 hpq.2

theorem tilesFrom_of_perm_sorted {l1 l2 : List Parameter} (a e : Nat)
    (h1 : tilesFrom a l1 e = true) (hne : ∀ p ∈ l1, p.value ≠ [])
    (hperm : l1.Perm l2) (h2 : List.Sorted paramLE l2) : tilesFrom a l2 e = true := by
  have hlt1 : l1.Pairwise paramLT := tilesFrom_pairwiseLT l1 a e h1 hne
  have hlt2 : l2.Pairwise paramLT := sorted_le_of_pairwiseLT hperm hlt1 h2
  have heq : l1 = l2 := List.eq_of_perm_of_sorted hperm hlt1 hlt2
  rw [← heq]
  exact h1

theorem asGap_value_length (address length pattern : Nat) :
    (Parameter.asGap address length pattern).value.length = length := by
  simp [Parameter.asGap]

theorem gapWalk_fst_gaps (fill : Nat) :
    ∀ (s : List Parameter) (run : Nat), ∀ g ∈ (gapWalk fill s run).1,
      g.ptype = ParamType.GAPFILL ∧ g.name = none ∧ ∀ x ∈ g.value, x = fill &&& 0xFF := by
  intro s
  induction s with
  | nil => intro run g hg; exact absurd hg (List.not_mem_nil g)
  | cons p ps ih =>
    intro run g hg
    unfold gapWalk at hg
    simp only [List.mem_append] at hg
    rcases hg with hg | hg
    · by_cases hlt : run < p.offset
      · rw [if_pos hlt] at hg
        rcases List.mem_singleton.mp hg with rfl
        refine ⟨rfl, rfl, ?_⟩
        intro x hx
        exact (List.eq_of_mem_replicate hx)
      · rw [if_neg hlt] at hg
        exact absurd hg (List.not_mem_nil g)
    · exact ih _ g hg

theorem weave_mem (fill : Nat) :
    ∀ (s : List Parameter) (run : Nat), ∀ p ∈ weave fill run s,
      p ∈ s ∨ p ∈ (gapWalk fill s run).1 := by
  intro s
  induction s with
  | nil => intro run p hp; exact absurd hp (List.not_mem_nil p)
  | cons q ps ih =>
    intro run p hp
    unfold weave at hp
    simp only [List.mem_append, List.mem_cons] at hp
    unfold gapWalk
    simp only [List.mem_append]
    rcases hp with hp | hp | hp
    · exact Or.inr (Or.inl hp)
    · rw [hp]
      exact Or.inl (List.mem_cons_self q ps)
    · rcases ih _ p hp with hs | hg
      · exact Or.inl (List.mem_cons_of_mem _ hs)
      · exact Or.inr (Or.inr hg)

theorem weave_tiles (fill : Nat) :
    ∀ (s : List Parameter) (run : Nat), List.Chain' endLE s →
      (∀ p, s.head? = some p → run ≤ p.offset) →
      tilesFrom run (weave fill run s) (gapWalk fill s run).2 = true := by
  intro s
  induction s with
  | nil => intro run _ _; simp [weave, gapWalk, tilesFrom]
  | cons p ps ih =>
    intro run hch hhd
    have hrp : run ≤ p.offset := hhd p rfl
    have hch' : List.Chain' endLE ps := hch.tail
    have hhd' : ∀ q, ps.head? = some q → p.offset + p.value.length ≤ q.offset := by
      intro q hq
      cases ps with
      | nil => cases hq
      | cons q' t =>
        have hq' : q' = q := by simpa using hq
        rw [← hq']
        exact (List.chain'_cons.mp hch).1
    rcases hgw : gapWalk fill ps (p.offset + p.value.length) with ⟨rest, fin⟩
    have hihtile := ih (p.offset + p.value.length) hch' hhd'
    rw [hgw] at hihtile
    have hg : (gapWalk fill (p :: ps) run).2 = fin := by
      unfold gapWalk
      rw [hgw]
    rw [weave, hg]
    by_cases hlt : run < p.offset
    · rw [if_pos hlt]
      simp only [List.singleton_append, tilesFrom, Bool.and_eq_true, beq_iff_eq,
        asGap_value_length]
      refine ⟨rfl, ?_, ?_⟩
      · omega
      · have hrw : run + (p.offset - run) + p.value.length = p.offset + p.value.length := by
          omega
        rw [hrw]
        exact hihtile
    · have heq : p.offset = run := Nat.le_antisymm (Nat.le_of_not_lt hlt) hrp
      rw [if_neg hlt]
      simp only [List.nil_append, tilesFrom, Bool.and_eq_true, beq_iff_eq]
      rw [heq] at hihtile ⊢
      exact ⟨rfl, hihtile⟩

theorem weave_perm (fill : Nat) :
    ∀ (s : List Parameter) (run : Nat),
      (weave fill run s).Perm (s ++ (gapWalk fill s run).1) := by
  intro s
  induction s with
  | nil => intro run; simp [weave, gapWalk]
  | cons p ps ih =>
    intro run
    rcases hgw : gapWalk fill ps (p.offset + p.value.length) with ⟨rest, fin⟩
    have ihp := ih (p.offset + p.value.length)
    rw [hgw] at ihp
    rw [weave]
    by_cases hlt : run < p.offset
    · have hg : (gapWalk fill (p :: ps) run).1 =
          Parameter.asGap run (p.offset - run) fill :: rest := by
        unfold gapWalk
        rw [hgw, if_pos hlt]
        rfl
      rw [hg, if_pos hlt]
      simp only [List.singleton_append, List.cons_append]
      have h1 : (Parameter.asGap run (p.offset - run) fill :: p ::
          weave fill (p.offset + p.value.length) ps).Perm
          (p :: Parameter.asGap run (p.offset - run) fill ::
            weave fill (p.offset + p.value.length) ps) := List.Perm.swap _ _ _
      have h2 : (p :: Parameter.asGap run (p.offset - run) fill ::
          weave fill (p.offset + p.value.length) ps).Perm
          (p :: Parameter.asGap run (p.offset - run) fill :: (ps ++ rest)) :=
        (ihp.cons _).cons _
      have h3 : (p :: Parameter.asGap run (p.offset - run) fill :: (ps ++ rest)).Perm
          (p :: (ps ++ Parameter.asGap run (p.offset - run) fill :: rest)) :=
        List.perm_middle.symm.cons _
      exact (h1.trans h2).trans h3
    · have hg : (gapWalk fill (p :: ps) run).1 = rest := by
        unfold gapWalk
        rw [hgw, if_neg hlt]
        rfl
      rw [hg, if_neg hlt]
      simp only [List.nil_append, List.cons_append]
      exact ihp.cons _

theorem weave_ne (fill : Nat) :
    ∀ (s : List Parameter) (run : Nat), (∀ q ∈ s, q.value ≠ []) →
      ∀ p ∈ weave fill run s, p.value ≠ [] := by
  intro s
  induction s with
  | nil => intro run _ p hp; exact absurd hp (List.not_mem_nil p)
  | cons q ps ih =>
    intro run hne p hp
    unfold weave at hp
    simp only [List.mem_append, List.mem_cons] at hp
    rcases hp with hp | hp | hp
    · by_cases hlt : run < q.offset
      · rw [if_pos hlt] at hp
        rcases List.mem_singleton.mp hp with rfl
        intro hcon
        have := congrArg List.length hcon
        rw [asGap_value_length] at this
        simp at this
        omega
      · rw [if_neg hlt] at hp
        exact absurd hp (List.not_mem_nil p)
    · rw [hp]
      exact hne q (List.mem_cons_self q ps)
    · exact ih _ (fun r hr => hne r (List.mem_cons_of_mem _ hr)) p hp

theorem gapWalk_snd_le (fill : Nat) :
    ∀ (s : List Parameter) (run hi : Nat), run ≤ hi →
      (∀ p ∈ s, p.offset + p.value.length ≤ hi) → (gapWalk fill s run).2 ≤ hi := by
  intro s
  induction s with
  | nil => intro run hi h _; exact h
  | cons p ps ih =>
    intro run hi h hp
    rcases hgw : gapWalk fill ps (p.offset + p.value.length) with ⟨rest, fin⟩
    unfold gapWalk
    rw [hgw]
    have := ih (p.offset + p.value.length) hi (hp p (List.mem_cons_self p ps))
      (fun q hq => hp q (List.mem_cons_of_mem _ hq))
    rw [hgw] at this
    exact this

theorem fillGaps_parameter (b : Block) :
    b.fillGaps.parameter =
      sortParams (b.parameter ++
        (gapWalk b.fill (sortParams b.parameter) (b.addr + b.headerSize)).1 ++
        (if (gapWalk b.fill (sortParams b.parameter) (b.addr + b.headerSize)).2 <
            b.addr + b.length then
          [Parameter.asGap
            (gapWalk b.fill (sortParams b.parameter) (b.addr + b.headerSize)).2
            (b.addr + b.length -
              (gapWalk b.fill (sortParams b.parameter) (b.addr + b.headerSize)).2) b.fill]
        else [])) := by
  unfold Block.fillGaps
  rcases hgw : gapWalk b.fill (sortParams b.parameter) (b.addr + b.headerSize) with ⟨gaps, fin⟩
  simp only [hgw]

theorem pairwise_endLE_of_sorted_disjoint (l : List Parameter)
    (hne : ∀ p ∈ l, p.value ≠ []) (hdisj : l.Pairwise disjointParams)
    (hsort : List.Sorted paramLE l) : l.Pairwise endLE := by
  refine (hsort.and hdisj).imp_of_mem ?_
  intro p q hp hq h
  have hql : 0 < q.value.length := List.length_pos.mpr (hne q hq)
  have hle : p.offset ≤ q.offset := h.1
  rcases h.2 with h1 | h2
  · exact h1
  · unfold endLE
    omega

/-- C1: for every block whose parameters have nonempty values, are pairwise
disjoint, lie between the end of the header region and the block end, and
whose header fits in the block, one call to `fill_gaps` leaves the
parameter list offset sorted and exactly tiling the byte range from the
block base (plus header) to the block end; the value lengths sum to the
block length minus the header length, and every parameter is either an
original one or a synthesized unnamed GAPFILL parameter all of whose bytes
equal the block fill byte. -/
theorem C1_fill_gaps_tiles (b : Block)
    (hne : ∀ p ∈ b.parameter, p.value ≠ [])
    (hdisj : b.parameter.Pairwise disjointParams)
    (hlo : ∀ p ∈ b.parameter, b.addr + b.headerSize ≤ p.offset)
    (hhi : ∀ p ∈ b.parameter, p.offset + p.value.length ≤ b.addr + b.length)
    (hhdr : b.headerSize ≤ b.length) :
    List.Sorted paramLE b.fillGaps.parameter ∧
    tilesFrom (b.addr + b.headerSize) b.fillGaps.parameter (b.addr + b.length) = true ∧
    (b.fillGaps.parameter.map fun p => p.value.length).sum = b.length - b.headerSize ∧
    ∀ p ∈ b.fillGaps.parameter, p ∈ b.parameter ∨
      (p.ptype = ParamType.GAPFILL ∧ p.name = none ∧
        ∀ x ∈ p.value, x = b.fill &&& 0xFF) := by
  have hpm := fillGaps_parameter b
  rcases hgw : gapWalk b.fill (sortParams b.parameter) (b.addr + b.headerSize) with ⟨gaps, fin⟩
  simp only [hgw] at hpm
  have hsortperm : (sortParams b.parameter).Perm b.parameter :=
    List.perm_insertionSort paramLE b.parameter
  have hsorted_s : List.Sorted paramLE (sortParams b.parameter) :=
    List.sorted_insertionSort paramLE b.parameter
  have hne_s : ∀ p ∈ sortParams b.parameter, p.value ≠ [] :=
    fun p hp => hne p (hsortperm.mem_iff.mp hp)
  have hdisj_s : (sortParams b.parameter).Pairwise disjointParams :=
    (hsortperm.pairwise_iff fun hab => Or.symm hab).mpr hdisj
  have hchain : List.Chain' endLE (sortParams b.parameter) :=
    (pairwise_endLE_of_sorted_disjoint _ hne_s hdisj_s hsorted_s).chain'
  have hhd : ∀ p, (sortParams b.parameter).head? = some p →
      b.addr + b.headerSize ≤ p.offset := by
    intro p hp
    exact hlo p (hsortperm.mem_iff.mp (List.mem_of_mem_head? (Option.mem_def.mpr hp)))
  have htile_w := weave_tiles b.fill (sortParams b.parameter) (b.addr + b.headerSize) hchain hhd
  simp only [hgw] at htile_w
  have hfin_le : fin ≤ b.addr + b.length := by
    have h := gapWalk_snd_le b.fill (sortParams b.parameter) (b.addr + b.headerSize)
      (b.addr + b.length) (by omega) (fun p hp => hhi p (hsortperm.mem_iff.mp hp))
    simp only [hgw] at h
    exact h
  set T := (if fin < b.addr + b.length then
    [Parameter.asGap fin (b.addr + b.length - fin) b.fill] else []) with hT
  have htile_full : tilesFrom (b.addr + b.headerSize)
      (weave b.fill (b.addr + b.headerSize) (sortParams b.parameter) ++ T)
      (b.addr + b.length) = true := by
    by_cases hlt : fin < b.addr + b.length
    · refine tilesFrom_append _ _ _ fin _ htile_w ?_
      rw [hT, if_pos hlt]
      simp only [tilesFrom, Bool.and_eq_true, beq_iff_eq, Parameter.asGap,
        List.length_replicate]
      exact ⟨trivial, by omega⟩
    · have hfe : fin = b.addr + b.length := Nat.le_antisymm hfin_le (Nat.le_of_not_lt hlt)
      rw [hT, if_neg hlt, List.append_nil, ← hfe]
      exact htile_w
  have hpermw : (weave b.fill (b.addr + b.headerSize) (sortParams b.parameter) ++ T).Perm
      (b.parameter ++ gaps ++ T) := by
    have h1 := weave_perm b.fill (sortParams b.parameter) (b.addr + b.headerSize)
    simp only [hgw] at h1
    have h2 : (sortParams b.parameter ++ gaps).Perm (b.parameter ++ gaps) :=
      hsortperm.append_right gaps
    exact (h1.trans h2).append_right T
  have hperm_final : (weave b.fill (b.addr + b.headerSize)
      (sortParams b.parameter) ++ T).Perm b.fillGaps.parameter := by
    rw [hpm]
    exact hpermw.trans (List.perm_insertionSort paramLE _).symm
  have hne_full : ∀ p ∈ weave b.fill (b.addr + b.headerSize) (sortParams b.parameter) ++ T,
      p.value ≠ [] := by
    intro p hp
    rcases List.mem_append.mp hp with hw | ht
    · exact weave_ne b.fill _ _ hne_s p hw
    · by_cases hlt : fin < b.addr + b.length
      · rw [hT, if_pos hlt] at ht
        rcases List.mem_singleton.mp ht with rfl
        intro hcon
        have hlen := congrArg List.length hcon
        rw [asGap_value_length] at hlen
        simp at hlen
        omega
      · rw [hT, if_neg hlt] at ht
        exact absurd ht (List.not_mem_nil p)
  have hsorted_final : List.Sorted paramLE b.fillGaps.parameter := by
    rw [hpm]
    exact List.sorted_insertionSort paramLE _
  have htile_final : tilesFrom (b.addr + b.headerSize) b.fillGaps.parameter
      (b.addr + b.length) = true :=
    tilesFrom_of_perm_sorted _ _ htile_full hne_full hperm_final hsorted_final
  refine ⟨hsorted_final, htile_final, ?_, ?_⟩
  · have hsum := tilesFrom_sum _ _ _ htile_final
    omega
  · intro p hp
    rw [hpm] at hp
    have hsp : (sortParams (b.parameter ++ gaps ++ T)).Perm (b.parameter ++ gaps ++ T) :=
      List.perm_insertionSort paramLE _
    have hp2 : p ∈ b.parameter ++ gaps ++ T := hsp.mem_iff.mp hp
    rcases List.mem_append.mp hp2 with hpg | hpt
    · rcases List.mem_append.mp hpg with hpb | hpgap
      · exact Or.inl hpb
      · right
        have hg1 : gaps =
            (gapWalk b.fill (sortParams b.parameter) (b.addr + b.headerSize)).1 := by
          rw [hgw]
        exact gapWalk_fst_gaps b.fill (sortParams b.parameter) (b.addr + b.headerSize) p
          (hg1 ▸ hpgap)
    · right
      by_cases hlt : fin < b.addr + b.length
      · rw [hT, if_pos hlt] at hpt
        rcases List.mem_singleton.mp hpt with rfl
        refine ⟨rfl, rfl, ?_⟩
        intro x hx
        exact List.eq_of_mem_replicate hx
      · rw [hT, if_neg hlt] at hpt
        exact absurd hpt (List.not_mem_nil p)

/-- C1 witness: the tiling theorem applied to a concrete block with one
parameter and gaps on both sides. -/
theorem C1_fill_gaps_tiles_witness :
    List.Sorted paramLE blkC1W.fillGaps.parameter ∧
    tilesFrom (blkC1W.addr + blkC1W.headerSize) blkC1W.fillGaps.parameter
      (blkC1W.addr + blkC1W.length) = true ∧
    (blkC1W.fillGaps.parameter.map fun p => p.value.length).sum =
      blkC1W.length - blkC1W.headerSize ∧
    ∀ p ∈ blkC1W.fillGaps.parameter, p ∈ blkC1W.parameter ∨
      (p.ptype = ParamType.GAPFILL ∧ p.name = none ∧
        ∀ x ∈ p.value, x = blkC1W.fill &&& 0xFF) :=
  C1_fill_gaps_tiles blkC1W (by decide) (by decide) (by decide) (by decide) (by decide)

/-- C1 counterexample: a block whose parameters are pairwise disjoint and
in range — the only non-overlap hypotheses of the claim — but one of them
has a zero length value; after `fill_gaps` the parameter list does not
tile the block and the value lengths sum to twice the block length. -/
theorem C1_counterexample :
    blkC1Bad.parameter.Pairwise disjointParams ∧
    (∀ p ∈ blkC1Bad.parameter, blkC1Bad.addr + blkC1Bad.headerSize ≤ p.offset) ∧
    (∀ p ∈ blkC1Bad.parameter,
      p.offset + p.value.length ≤ blkC1Bad.addr + blkC1Bad.length) ∧
    tilesFrom (blkC1Bad.addr + blkC1Bad.headerSize) blkC1Bad.fillGaps.parameter
      (blkC1Bad.addr + blkC1Bad.length) = false ∧
    (blkC1Bad.fillGaps.parameter.map fun p => p.value.length).sum ≠
      blkC1Bad.length - blkC1Bad.headerSize := by
  decide

theorem digitVal_digitChar16_10 : ∀ d < 10, digitVal 10 (digitChar16 d) = some d := by
  decide

theorem digitVal_digitChar16_16 : ∀ d < 16, digitVal 16 (digitChar16 d) = some d := by
  decide

theorem digitChar16_ne : ∀ d < 16, digitChar16 d ≠ '-' ∧ digitChar16 d ≠ 'x' ∧
    digitChar16 d ≠ ' ' ∧ digitChar16 d ≠ '\n' ∧ digitChar16 d ≠ Char.ofNat 123 := by
  decide

theorem parseNatAux_cons (b acc : Nat) (c : Char) (cs : List Char) :
    parseNatAux b acc (c :: cs) =
      match digitVal b c with
      | some d => parseNatAux b (acc * b + d) cs
      | none => (acc, c :: cs) := rfl

theorem parseNat_cons (b : Nat) (c : Char) (cs : List Char) :
    parseNat b (c :: cs) =
      if (digitVal b c).isSome then some (parseNatAux b 0 (c :: cs)) else none := rfl

theorem parseNatAux_stop (b acc : Nat) (rest : List Char)
    (h : ∀ c cs, rest = c :: cs → digitVal b c = none) :
    parseNatAux b acc rest = (acc, rest) := by
  cases rest with
  | nil => rfl
  | cons c cs =>
    rw [parseNatAux_cons, h c cs rfl]

theorem skipWs_cons (c : Char) (cs : List Char) :
    skipWs (c :: cs) = if c = ' ' ∨ c = '\n' then skipWs cs else c :: cs := rfl

theorem skipWs_cons_not (c : Char) (cs : List Char) (h : ¬(c = ' ' ∨ c = '\n')) :
    skipWs (c :: cs) = c :: cs := by
  rw [skipWs_cons, if_neg h]

theorem skipWs_spaces : ∀ (k : Nat) (l : List Char),
    skipWs (List.replicate k ' ' ++ l) = skipWs l := by
  intro k
  induction k with
  | zero => intro l; rfl
  | succ k ih =>
    intro l
    rw [List.replicate_succ, List.cons_append, skipWs_cons, if_pos (Or.inl rfl)]
    exact ih l

theorem natDigits_ne_nil (b n : Nat) : natDigits b n ≠ [] := by
  rw [natDigits]
  split
  · simp
  · simp

theorem natDigits_digits (b : Nat) (hb : b = 10 ∨ b = 16) :
    ∀ n, ∀ c ∈ natDigits b n, ∃ d, d < b ∧ c = digitChar16 d := by
  intro n
  induction n using Nat.strong_induction_on with
  | _ n ih =>
    rw [natDigits]
    split
    · next h =>
      intro c hc
      rcases List.mem_singleton.mp hc with rfl
      have hnb : n < b := by rcases hb with rfl | rfl <;> omega
      exact ⟨n, hnb, rfl⟩
    · next h =>
      intro c hc
      have hb1 : 1 < b := by rcases hb with rfl | rfl <;> omega
      rcases List.mem_append.mp hc with hc | hc
      · exact ih (n / b) (Nat.div_lt_self (by omega) hb1) c hc
      · rcases List.mem_singleton.mp hc with rfl
        exact ⟨n % b, Nat.mod_lt n (by omega), rfl⟩

theorem parseNatAux_digits (b : Nat) (hb : b = 10 ∨ b = 16) :
    ∀ n (rest : List Char) (acc : Nat),
      parseNatAux b acc (natDigits b n ++ rest) =
        parseNatAux b (acc * b ^ (natDigits b n).length + n) rest := by
  have hdv : ∀ d, d < b → digitVal b (digitChar16 d) = some d := by
    rcases hb with rfl | rfl
    · exact digitVal_digitChar16_10
    · exact digitVal_digitChar16_16
  intro n
  induction n using Nat.strong_induction_on with
  | _ n ih =>
    intro rest acc
    rw [natDigits]
    split
    · next h =>
      have hnb : n < b := by rcases hb with rfl | rfl <;> omega
      simp only [List.singleton_append, List.length_cons, List.length_nil]
      rw [parseNatAux_cons, hdv n hnb]
      simp only [pow_one, Nat.zero_add]
    · next h =>
      have hb1 : 1 < b := by rcases hb with rfl | rfl <;> omega
      have hnp : 0 < n := by omega
      rw [List.append_assoc, ih (n / b) (Nat.div_lt_self hnp hb1) _ acc,
        List.singleton_append, parseNatAux_cons]
      simp only [hdv (n % b) (Nat.mod_lt n (by omega))]
      congr 1
      rw [List.length_append, List.length_singleton, Nat.add_mul, Nat.add_assoc]
      have hdm : n / b * b + n % b = n := by
        rw [Nat.mul_comm]
        exact Nat.div_add_mod n b
      rw [hdm, pow_succ, Nat.mul_assoc]

theorem parseNatAux_zeros (b : Nat) (hb : b = 10 ∨ b = 16) :
    ∀ (k : Nat) (l : List Char),
      parseNatAux b 0 (List.replicate k '0' ++ l) = parseNatAux b 0 l := by
  have h0 : digitVal b '0' = some 0 := by rcases hb with rfl | rfl <;> decide
  intro k
  induction k with
  | zero => intro l; rfl
  | succ k ih =>
    intro l
    rw [List.replicate_succ, List.cons_append, parseNatAux_cons, h0]
    simpa using ih l

theorem parseNat_digits (b : Nat) (hb : b = 10 ∨ b = 16) (n k : Nat) (rest : List Char)
    (hrest : ∀ c cs, rest = c :: cs → digitVal b c = none) :
    parseNat b (List.replicate k '0' ++ natDigits b n ++ rest) = some (n, rest) := by
  have h0 : digitVal b '0' = some 0 := by rcases hb with rfl | rfl <;> decide
  have hdv : ∀ d, d < b → digitVal b (digitChar16 d) = some d := by
    rcases hb with rfl | rfl
    · exact digitVal_digitChar16_10
    · exact digitVal_digitChar16_16
  have hmain : parseNatAux b 0 (natDigits b n ++ rest) = (n, rest) := by
    rw [parseNatAux_digits b hb n rest 0, Nat.zero_mul, Nat.zero_add]
    exact parseNatAux_stop b n rest hrest
  cases k with
  | zero =>
    rw [List.replicate, List.nil_append]
    cases hnd : natDigits b n with
    | nil => exact absurd hnd (natDigits_ne_nil b n)
    | cons c cs =>
      rcases natDigits_digits b hb n c (by rw [hnd]; exact List.mem_cons_self c cs)
        with ⟨d, hd, rfl⟩
      rw [List.cons_append, parseNat_cons, if_pos (by rw [hdv d hd]; rfl)]
      rw [← List.cons_append, ← hnd, hmain]
  | succ k =>
    rw [List.append_assoc, List.replicate_succ, List.cons_append, parseNat_cons,
      if_pos (by rw [h0]; rfl)]
    rw [← List.cons_append, ← List.replicate_succ, parseNatAux_zeros b hb, hmain]

theorem parseNumeral_dec (cs ds : List Char) (hskip : skipWs cs = ds)
    (hneg : ∀ r, ds ≠ '-' :: r) (hno : ∀ r, ds ≠ '0' :: 'x' :: r) :
    parseNumeral cs = (parseNat 10 ds).map fun p => ((p.1 : Int), p.2) := by
  unfold parseNumeral
  rw [hskip]
  split
  all_goals first
    | (next r => exact absurd rfl (hneg r))
    | (next r => exact absurd rfl (hno r))
    | rfl

theorem parseNumeral_neg (cs ds : List Char) (hskip : skipWs cs = '-' :: ds)
    (hno : ∀ r, ds ≠ '0' :: 'x' :: r) :
    parseNumeral cs = (parseNat 10 ds).map fun p => (-(p.1 : Int), p.2) := by
  unfold parseNumeral
  simp only [hskip]

theorem parseNumeral_hex (cs ds : List Char) (hskip : skipWs cs = '0' :: 'x' :: ds) :
    parseNumeral cs = (parseNat 16 ds).map fun p => ((p.1 : Int), p.2) := by
  unfold parseNumeral
  simp only [hskip]

theorem natDigits_no_hex_tail (b : Nat) (hb : b = 10 ∨ b = 16) (n : Nat) :
    ∀ r, natDigits b n ≠ '0' :: 'x' :: r := by
  intro r h
  have hx : 'x' ∈ natDigits b n := by
    rw [h]
    exact List.mem_cons_of_mem _ (List.mem_cons_self _ _)
  rcases natDigits_digits b hb n 'x' hx with ⟨d, hd, hc⟩
  have hd16 : d < 16 := by rcases hb with rfl | rfl <;> omega
  exact (digitChar16_ne d hd16).2.1 hc.symm

theorem natDigits_no_neg_head (b : Nat) (hb : b = 10 ∨ b = 16) (n : Nat) :
    ∀ r, natDigits b n ≠ '-' :: r := by
  intro r h
  have hx : '-' ∈ natDigits b n := by
    rw [h]
    exact List.mem_cons_self _ _
  rcases natDigits_digits b hb n '-' hx with ⟨d, hd, hc⟩
  have hd16 : d < 16 := by rcases hb with rfl | rfl <;> omega
  exact (digitChar16_ne d hd16).1 hc.symm

theorem cLiteralParse_uint_lit (s u : Nat) :
    cLiteralParse ('0' :: 'x' :: padLeftTo '0' (2 * s) (natDigits 16 u)) =
      some (.num (u : Int)) := by
  have hsk : skipWs ('0' :: 'x' :: padLeftTo '0' (2 * s) (natDigits 16 u)) =
      '0' :: 'x' :: padLeftTo '0' (2 * s) (natDigits 16 u) :=
    skipWs_cons_not _ _ (by decide)
  have hpl : padLeftTo '0' (2 * s) (natDigits 16 u) =
      List.replicate (2 * s - (natDigits 16 u).length) '0' ++ natDigits 16 u ++ [] := by
    rw [List.append_nil]
    rfl
  have hparse : parseNat 16 (padLeftTo '0' (2 * s) (natDigits 16 u)) = some (u, []) := by
    rw [hpl]
    exact parseNat_digits 16 (Or.inr rfl) u _ [] (fun c cs h => absurd h (by simp))
  unfold cLiteralParse
  simp only [hsk]
  rw [if_neg (show ¬('0' = Char.ofNat 123) by decide)]
  rw [parseNumeral_hex _ _ hsk, hparse]
  rfl

theorem cLiteralParse_sint_lit (w : Nat) (v : Int) :
    cLiteralParse (padLeftTo ' ' w (decString v)) = some (.num v) := by
  have hpad : padLeftTo ' ' w (decString v) =
      List.replicate (w - (decString v).length) ' ' ++ decString v := rfl
  by_cases hv : v < 0
  · have hds : decString v = '-' :: natDigits 10 v.natAbs := by
      unfold decString
      rw [if_pos hv]
    have hsk1 : skipWs (padLeftTo ' ' w (decString v)) = '-' :: natDigits 10 v.natAbs := by
      rw [hpad, skipWs_spaces, hds]
      exact skipWs_cons_not _ _ (by decide)
    have hsk2 : skipWs ('-' :: natDigits 10 v.natAbs) = '-' :: natDigits 10 v.natAbs :=
      skipWs_cons_not _ _ (by decide)
    have hparse : parseNat 10 (natDigits 10 v.natAbs) = some (v.natAbs, []) := by
      rw [show natDigits 10 v.natAbs =
        List.replicate 0 '0' ++ natDigits 10 v.natAbs ++ [] by simp]
      exact parseNat_digits 10 (Or.inl rfl) _ 0 [] (fun c cs h => absurd h (by simp))
    unfold cLiteralParse
    simp only [hsk1]
    rw [if_neg (show ¬('-' = Char.ofNat 123) by decide)]
    rw [parseNumeral_neg _ _ hsk2 (natDigits_no_hex_tail 10 (Or.inl rfl) _), hparse]
    have hcast : -((v.natAbs : Int)) = v := by omega
    simp [hcast, skipWs]
    rw [abs_of_nonpos (le_of_lt hv)]
    exact neg_neg v
  · have hds : decString v = natDigits 10 v.toNat := by
      unfold decString
      rw [if_neg hv]
    cases hnd : natDigits 10 v.toNat with
    | nil => exact absurd hnd (natDigits_ne_nil 10 v.toNat)
    | cons c cs =>
      rcases natDigits_digits 10 (Or.inl rfl) v.toNat c
        (by rw [hnd]; exact List.mem_cons_self c cs) with ⟨d, hd, rfl⟩
      have hd16 : d < 16 := by omega
      have hne := digitChar16_ne d hd16
      have hnws : ¬(digitChar16 d = ' ' ∨ digitChar16 d = '\n') := by
        intro hcon
        rcases hcon with hcon | hcon
        · exact hne.2.2.1 hcon
        · exact hne.2.2.2.1 hcon
      have hsk1 : skipWs (padLeftTo ' ' w (decString v)) = digitChar16 d :: cs := by
        rw [hpad, skipWs_spaces, hds, hnd]
        exact skipWs_cons_not _ _ hnws
      have hsk2 : skipWs (digitChar16 d :: cs) = digitChar16 d :: cs :=
        skipWs_cons_not _ _ hnws
      have hparse : parseNat 10 (natDigits 10 v.toNat) = some (v.toNat, []) := by
        rw [show natDigits 10 v.toNat =
          List.replicate 0 '0' ++ natDigits 10 v.toNat ++ [] by simp]
        exact parseNat_digits 10 (Or.inl rfl) _ 0 [] (fun c cs h => absurd h (by simp))
      unfold cLiteralParse
      simp only [hsk1]
      rw [if_neg (show ¬(digitChar16 d = Char.ofNat 123) from hne.2.2.2.2)]
      rw [parseNumeral_dec _ _ hsk2
        (by rw [← hnd]; exact natDigits_no_neg_head 10 (Or.inl rfl) _)
        (by rw [← hnd]; exact natDigits_no_hex_tail 10 (Or.inl rfl) _), ← hnd, hparse]
      have hcast : ((v.toNat : Int)) = v := Int.toNat_of_nonneg (by omega)
      simp [hcast, skipWs]

theorem packScalar_uint (pt : ParamType) (td : TypeData) (e : Endianness) (v : Int)
    (htd : TYPE_DATA pt = some td) (hk : td.kind = .uint)
    (h0 : 0 ≤ v) (hv : v < (2 : Int) ^ (8 * td.size)) :
    packScalar pt e v = .ok (orient e (natToBytesLE td.size v.toNat)) := by
  unfold packScalar
  simp only [htd, hk]
  unfold packUnsigned
  rw [if_pos ⟨h0, hv⟩]

theorem packScalar_sint (pt : ParamType) (td : TypeData) (e : Endianness) (v : Int)
    (htd : TYPE_DATA pt = some td) (hk : td.kind = .sint)
    (hlo : -((2 : Int) ^ (8 * td.size - 1)) ≤ v) (hhi : v < (2 : Int) ^ (8 * td.size - 1)) :
    packScalar pt e v =
      .ok (orient e (natToBytesLE td.size (v % (2 : Int) ^ (8 * td.size)).toNat)) := by
  unfold packScalar
  simp only [htd, hk]
  unfold packSigned
  rw [if_pos ⟨hlo, hhi⟩]

theorem unpackOne_uint (pt : ParamType) (td : TypeData) (e : Endianness) (chunk : List Nat)
    (htd : TYPE_DATA pt = some td) (hk : td.kind = .uint) :
    unpackOne pt e chunk = .ok (.int (bytesToNatLE (orient e chunk))) := by
  unfold unpackOne
  simp only [htd, hk]

theorem unpackOne_sint (pt : ParamType) (td : TypeData) (e : Endianness) (chunk : List Nat)
    (htd : TYPE_DATA pt = some td) (hk : td.kind = .sint) :
    unpackOne pt e chunk = .ok (.int
      (if bytesToNatLE (orient e chunk) < 2 ^ (8 * td.size - 1)
       then (bytesToNatLE (orient e chunk) : Int)
       else (bytesToNatLE (orient e chunk) : Int) - 2 ^ (8 * td.size))) := by
  unfold unpackOne
  simp only [htd, hk]

theorem structUnpack_single (pt : ParamType) (td : TypeData) (e : Endianness)
    (bs : List Nat) (val : CVal) (htd : TYPE_DATA pt = some td)
    (hlen : bs.length = td.size) (hpos : 0 < td.size)
    (hun : unpackOne pt e bs = .ok val) :
    structUnpack pt e bs = .ok [val] := by
  unfold structUnpack
  simp only [htd]
  rw [if_pos (by rw [hlen]; exact Nat.mod_self td.size)]
  rw [chunkList_self bs td.size hlen hpos]
  simp [List.mapM.loop, hun]

theorem bytesToCInit_single (pt : ParamType) (td : TypeData) (e : Endianness)
    (bs : List Nat) (val : CVal) (htd : TYPE_DATA pt = some td)
    (hsu : structUnpack pt e bs = .ok [val]) :
    bytesToCInit pt e bs = .ok (valueToC val td) := by
  unfold bytesToCInit
  simp only [htd, hsu]
  rfl

theorem sint_decode (s : Nat) (hs : 0 < s) (v : Int)
    (hlo : -((2 : Int) ^ (8 * s - 1)) ≤ v) (hhi : v < (2 : Int) ^ (8 * s - 1)) :
    (if (v % (2 : Int) ^ (8 * s)).toNat < 2 ^ (8 * s - 1)
     then ((v % (2 : Int) ^ (8 * s)).toNat : Int)
     else ((v % (2 : Int) ^ (8 * s)).toNat : Int) - 2 ^ (8 * s)) = v := by
  have hP2 : (2 : Int) ^ (8 * s) = 2 ^ (8 * s - 1) * 2 := by
    rw [← pow_succ]
    congr 1
    omega
  have hPn : ((2 ^ (8 * s - 1) : Nat) : Int) = (2 : Int) ^ (8 * s - 1) := by
    push_cast
    ring
  have hA0 : (0 : Int) < 2 ^ (8 * s - 1) := by positivity
  have hbpos : (0 : Int) < (2 : Int) ^ (8 * s) := by positivity
  have hm0 : 0 ≤ v % (2 : Int) ^ (8 * s) := Int.emod_nonneg v (ne_of_gt hbpos)
  have hcast : ((v % (2 : Int) ^ (8 * s)).toNat : Int) = v % 2 ^ (8 * s) :=
    Int.toNat_of_nonneg hm0
  by_cases hv0 : 0 ≤ v
  · have hmodeq : v % (2 : Int) ^ (8 * s) = v :=
      Int.emod_eq_of_lt hv0 (by rw [hP2]; linarith)
    rw [if_pos (by omega), hcast, hmodeq]
  · have hadd : v % (2 : Int) ^ (8 * s) = v + 2 ^ (8 * s) := by
      have h1 : (v + 2 ^ (8 * s)) % (2 : Int) ^ (8 * s) = v % 2 ^ (8 * s) := by
        have h1a := Int.add_mul_emod_self_left (a := v) (b := (2 : Int) ^ (8 * s)) (c := 1)
        simpa using h1a
      have h2 : (v + 2 ^ (8 * s)) % (2 : Int) ^ (8 * s) = v + 2 ^ (8 * s) :=
        Int.emod_eq_of_lt (by rw [hP2]; linarith) (by linarith)
      rw [← h1, h2]
    have hge : (2 ^ (8 * s - 1) : Nat) ≤ (v % (2 : Int) ^ (8 * s)).toNat := by
      have hgi : (2 : Int) ^ (8 * s - 1) ≤ ((v % (2 : Int) ^ (8 * s)).toNat : Int) := by
        rw [hcast, hadd, hP2]
        linarith
      rw [← hPn] at hgi
      exact_mod_cast hgi
    rw [if_neg (not_lt.mpr hge), hcast, hadd]
    ring

theorem int_roundtrip_uint (pt : ParamType) (td : TypeData) (e : Endianness) (v : Int)
    (htd : TYPE_DATA pt = some td) (hk : td.kind = .uint) (hs : 0 < td.size)
    (hsgn : td.signed = false) (h0 : 0 ≤ v) (hv : v < (2 : Int) ^ (8 * td.size)) :
    ∃ bs lit, jsonToBytes pt e (.num v) = .ok bs ∧ bytesToCInit pt e bs = .ok lit ∧
      cLiteralParse lit = some (.num v) := by
  have hcastP : ((2 ^ (8 * td.size) : Nat) : Int) = (2 : Int) ^ (8 * td.size) := by
    push_cast
    ring
  have hvn : v.toNat < 2 ^ (8 * td.size) := by
    have h1 : (v.toNat : Int) < ((2 ^ (8 * td.size) : Nat) : Int) := by
      rw [Int.toNat_of_nonneg h0, hcastP]
      exact hv
    exact_mod_cast h1
  refine ⟨orient e (natToBytesLE td.size v.toNat),
    '0' :: 'x' :: padLeftTo '0' (2 * td.size) (natDigits 16 v.toNat), ?_, ?_, ?_⟩
  · show packScalar pt e v = _
    exact packScalar_uint pt td e v htd hk h0 hv
  · have hlen : (orient e (natToBytesLE td.size v.toNat)).length = td.size := by
      rw [orient_length, natToBytesLE_length]
    have hun : unpackOne pt e (orient e (natToBytesLE td.size v.toNat)) =
        .ok (.int (v.toNat : Int)) := by
      rw [unpackOne_uint pt td e _ htd hk, orient_orient,
        bytesToNatLE_natToBytesLE td.size v.toNat hvn]
    rw [bytesToCInit_single pt td e _ (.int (v.toNat : Int)) htd
      (structUnpack_single pt td e _ _ htd hlen hs hun)]
    simp [valueToC, hsgn, Int.toNat_natCast]
    rw [sup_eq_left.mpr h0]
  · rw [cLiteralParse_uint_lit td.size v.toNat, Int.toNat_of_nonneg h0]

theorem int_roundtrip_sint (pt : ParamType) (td : TypeData) (e : Endianness) (v : Int)
    (htd : TYPE_DATA pt = some td) (hk : td.kind = .sint) (hs : 0 < td.size)
    (hsgn : td.signed = true)
    (hlo : -((2 : Int) ^ (8 * td.size - 1)) ≤ v)
    (hhi : v < (2 : Int) ^ (8 * td.size - 1)) :
    ∃ bs lit, jsonToBytes pt e (.num v) = .ok bs ∧ bytesToCInit pt e bs = .ok lit ∧
      cLiteralParse lit = some (.num v) := by
  have hbpos : (0 : Int) < (2 : Int) ^ (8 * td.size) := by positivity
  have hm0 : 0 ≤ v % (2 : Int) ^ (8 * td.size) := Int.emod_nonneg v (ne_of_gt hbpos)
  have hmlt : v % (2 : Int) ^ (8 * td.size) < 2 ^ (8 * td.size) := Int.emod_lt_of_pos v hbpos
  have hcastP : ((2 ^ (8 * td.size) : Nat) : Int) = (2 : Int) ^ (8 * td.size) := by
    push_cast
    ring
  have hMn : (v % (2 : Int) ^ (8 * td.size)).toNat < 2 ^ (8 * td.size) := by
    have h1 : ((v % (2 : Int) ^ (8 * td.size)).toNat : Int) <
        ((2 ^ (8 * td.size) : Nat) : Int) := by
      rw [Int.toNat_of_nonneg hm0, hcastP]
      exact hmlt
    exact_mod_cast h1
  refine ⟨orient e (natToBytesLE td.size (v % (2 : Int) ^ (8 * td.size)).toNat),
    padLeftTo ' ' td.width (decString v), ?_, ?_, ?_⟩
  · show packScalar pt e v = _
    exact packScalar_sint pt td e v htd hk hlo hhi
  · have hlen : (orient e (natToBytesLE td.size
        (v % (2 : Int) ^ (8 * td.size)).toNat)).length = td.size := by
      rw [orient_length, natToBytesLE_length]
    have hun : unpackOne pt e (orient e (natToBytesLE td.size
        (v % (2 : Int) ^ (8 * td.size)).toNat)) = .ok (.int v) := by
      rw [unpackOne_sint pt td e _ htd hk, orient_orient,
        bytesToNatLE_natToBytesLE td.size _ hMn, sint_decode td.size hs v hlo hhi]
    rw [bytesToCInit_single pt td e _ (.int v) htd
      (structUnpack_single pt td e _ _ htd hlen hs hun)]
    simp [valueToC, hsgn]
  · exact cLiteralParse_sint_lit td.width v

/-- C6 (amended to the integer types): for every integer parameter type,
both endiannesses, and every value representable in the type,
`json_to_bytes` packs the value into the type's bytes, `bytes_to_c_init`
renders those bytes back into a C literal, and the literal re-parses
numerically to the original value. -/
theorem C6_int_roundtrip (pt : ParamType) (e : Endianness) (v : Int)
    (hint : isIntType pt = true) (hrange : inIntRange pt v) :
    ∃ bs lit, jsonToBytes pt e (.num v) = .ok bs ∧ bytesToCInit pt e bs = .ok lit ∧
      cLiteralParse lit = some (.num v) := by
  cases pt with
  | UINT32 => exact int_roundtrip_uint _ _ e v rfl rfl (by decide) rfl hrange.1 hrange.2
  | UINT8 => exact int_roundtrip_uint _ _ e v rfl rfl (by decide) rfl hrange.1 hrange.2
  | UINT16 => exact int_roundtrip_uint _ _ e v rfl rfl (by decide) rfl hrange.1 hrange.2
  | UINT64 => exact int_roundtrip_uint _ _ e v rfl rfl (by decide) rfl hrange.1 hrange.2
  | INT8 => exact int_roundtrip_sint _ _ e v rfl rfl (by decide) rfl hrange.1 hrange.2
  | INT16 => exact int_roundtrip_sint _ _ e v rfl rfl (by decide) rfl hrange.1 hrange.2
  | INT32 => exact int_roundtrip_sint _ _ e v rfl rfl (by decide) rfl hrange.1 hrange.2
  | INT64 => exact int_roundtrip_sint _ _ e v rfl rfl (by decide) rfl hrange.1 hrange.2
  | FLOAT32 => exact absurd hint (by decide)
  | FLOAT64 => exact absurd hint (by decide)
  | UTF8 => exact absurd hint (by decide)
  | GAPFILL => exact absurd hint (by decide)
  | COMPLEX => exact absurd hint (by decide)

/-- C6 witness: the round trip theorem applied at INT16, big endian,
value -2. -/
theorem C6_int_roundtrip_witness :
    ∃ bs lit, jsonToBytes .INT16 .BE (.num (-2)) = .ok bs ∧
      bytesToCInit .INT16 .BE bs = .ok lit ∧ cLiteralParse lit = some (.num (-2)) :=
  C6_int_roundtrip .INT16 .BE (-2) (by decide) (by norm_num [inIntRange, TYPE_DATA])

/-- C6 counterexample: a UTF8 string value does not survive the round
trip; the rendered literal of the packed bytes of the one character string
"a" re-parses to the two element array [97, 0] (the appended NUL byte
becomes a separate element), not to the original string value. -/
theorem C6_counterexample :
    (jsonToBytes .UTF8 .LE (.str [97]) >>= bytesToCInit .UTF8 .LE).map cLiteralParse =
      .ok (some (.arr [97, 0])) ∧ JValue.arr [97, 0] ≠ JValue.str [97] := by
  decide
